import Mathlib

/-!
Shallow embedding of the `rl_agent` crate (grid-world Q-learning agent):
`LocationValue`, `Action`, `Percept`, `Environment` and `Robot` together
with their operations, translated from `src/lib.rs`.

Conventions of the embedding:
* `f32` values are modelled as rationals (`ℚ`): every arithmetic
  expression is carried over verbatim.
* `usize` is modelled as `ℕ`; a `usize` subtraction that the source
  performs without a guard is modelled by the checked `subUsize`, which
  returns `none` exactly when the Rust debug build would panic on
  underflow.
* Indexing `v[i]` is modelled by `List.get?`-style access inside the
  `Option` monad, returning `none` exactly when Rust would panic.
* Calls to `random_range` are modelled by externally supplied draws:
  a rational `r` for `random_range(0.0..1.0)` and natural numbers taken
  modulo the range size for integer draws, so that every value the Rust
  generator can produce is realisable by some parameter value.
-/

namespace RLAgent

/-- `LocationValue` from src/lib.rs: contents of one grid cell. -/
inductive LocationValue
  | Empty
  | Can
  | Wall
deriving DecidableEq, Repr, Fintype

/-- `all_locations()` from src/lib.rs. -/
def all_locations : List LocationValue :=
  [.Empty, .Can, .Wall]

/-- `Action` from src/lib.rs. -/
inductive Action
  | MoveNorth
  | MoveSouth
  | MoveEast
  | MoveWest
  | PickUpCan
deriving DecidableEq, Repr, Fintype

/-- `all_actions()` from src/lib.rs. -/
def all_actions : List Action :=
  [.MoveNorth, .MoveSouth, .MoveEast, .MoveWest, .PickUpCan]

/-- `impl From<usize> for Action` from src/lib.rs. -/
def Action.fromUsize (value : ℕ) : Action :=
  match value with
  | 0 => .MoveNorth
  | 1 => .MoveSouth
  | 2 => .MoveEast
  | 3 => .MoveWest
  | _ => .PickUpCan

/-- `impl From<Action> for usize` from src/lib.rs. -/
def Action.toUsize : Action → ℕ
  | .MoveNorth => 0
  | .MoveSouth => 1
  | .MoveEast => 2
  | .MoveWest => 3
  | .PickUpCan => 4

/-- `random_action()` from src/lib.rs; the draw of `random_range(0..5)`
is modelled by `n % 5`. -/
def random_action (n : ℕ) : Action :=
  Action.fromUsize (n % 5)

/-- `Percept` from src/lib.rs. -/
structure Percept where
  current : LocationValue
  north : LocationValue
  south : LocationValue
  east : LocationValue
  west : LocationValue
deriving DecidableEq, Repr, Fintype

/-- `generate_percept_map()` from src/lib.rs: the nested loops over
`all_locations()` (north outermost, then south, east, west, current
innermost) insert each percept with a running index, so the map is the
association list pairing the enumeration with `0, 1, 2, …`. -/
def generate_percept_map : List (Percept × ℕ) :=
  (all_locations.flatMap fun north =>
    all_locations.flatMap fun south =>
      all_locations.flatMap fun east =>
        all_locations.flatMap fun west =>
          all_locations.map fun current =>
            ({ current := current, north := north, south := south
             , east := east, west := west } : Percept)).enum.map
    fun e => (e.2, e.1)

/-- Lookup in the percept map, modelling `HashMap` indexing
`map[p]` (which panics when the key is absent, hence `Option`). -/
def mapLookup (m : List (Percept × ℕ)) (p : Percept) : Option ℕ :=
  (m.find? fun e => decide (e.1 = p)).map Prod.snd

/-- Checked `usize` subtraction: `none` models the debug-mode underflow
panic of `a - b` for `b > a`. -/
def subUsize (a b : ℕ) : Option ℕ :=
  if b ≤ a then some (a - b) else none

/-- Checked double indexing `grid[x][y]` (read). -/
def getCell (g : List (List LocationValue)) (x y : ℕ) : Option LocationValue := do
  let row ← g[x]?
  row[y]?

/-- Checked double indexing `grid[x][y] = v` (write). -/
def setCell (g : List (List LocationValue)) (x y : ℕ) (v : LocationValue) :
    Option (List (List LocationValue)) := do
  let row ← g[x]?
  if y < row.length then some (g.set x (row.set y v)) else none

/-- Total cell read with default, used to state properties. -/
def getCellD (g : List (List LocationValue)) (x y : ℕ) : LocationValue :=
  (g.getD x []).getD y .Empty

/-- `Environment` from src/lib.rs. -/
structure Environment where
  grid_dimension : ℕ
  initial_number_of_cans : ℕ
  robot_coordinates : ℕ × ℕ
  crash_count : ℕ
  grid : List (List LocationValue)
deriving DecidableEq, Repr

/-- `Environment::new` from src/lib.rs. -/
def Environment.new (grid_dimension initial_number_of_cans : ℕ)
    (robot_coordinates : ℕ × ℕ) : Environment :=
  { grid_dimension := grid_dimension
  , initial_number_of_cans := initial_number_of_cans
  , robot_coordinates := robot_coordinates
  , crash_count := 0
  , grid := List.replicate grid_dimension
      (List.replicate grid_dimension LocationValue.Empty) }

/-- `Environment::count_cans` from src/lib.rs: the nested folds. -/
def Environment.count_cans (env : Environment) : ℕ :=
  env.grid.foldl
    (fun overall_sum row =>
      overall_sum +
        row.foldl
          (fun row_sum space =>
            match space with
            | LocationValue.Can => row_sum + 1
            | LocationValue.Empty => row_sum
            | LocationValue.Wall => row_sum)
          0)
    0

/-- `Environment::create_percept` from src/lib.rs.  The east branch
reads `self.grid[y][y + 1]` — with row index `y`, exactly as in the
source — while the other three neighbours use the robot's coordinates
symmetrically. -/
def Environment.create_percept (env : Environment) : Option Percept := do
  let (x, y) := env.robot_coordinates
  let current ← getCell env.grid x y
  let south ←
    if x = 0 then pure LocationValue.Wall
    else getCell env.grid (x - 1) y
  let dimM1 ← subUsize env.grid_dimension 1
  let north ←
    if x = dimM1 then pure LocationValue.Wall
    else getCell env.grid (x + 1) y
  let west ←
    if y = 0 then pure LocationValue.Wall
    else getCell env.grid x (y - 1)
  let east ←
    if y = dimM1 then pure LocationValue.Wall
    else getCell env.grid y (y + 1)
  pure { current := current, north := north, south := south
       , east := east, west := west }

/-- `Environment::crash` from src/lib.rs. -/
def Environment.crash (env : Environment) (a : Action) : Option Bool := do
  let (x, y) := env.robot_coordinates
  let dimM1 ← subUsize env.grid_dimension 1
  pure ((decide (a = Action.MoveEast) && decide (y ≥ dimM1))
    || (decide (a = Action.MoveWest) && decide (y = 0))
    || (decide (a = Action.MoveNorth) && decide (x ≥ dimM1))
    || (decide (a = Action.MoveSouth) && decide (x = 0)))

/-- `Environment::calculate_reward` from src/lib.rs: returns the reward
together with the mutated environment (`crash_count` is incremented on
a crash). -/
def Environment.calculate_reward (env : Environment) (a : Action) :
    Option (ℚ × Environment) := do
  let (x, y) := env.robot_coordinates
  match a with
  | Action.PickUpCan => do
      let c ← getCell env.grid x y
      match c with
      | LocationValue.Can => pure ((10 : ℚ), env)
      | _ => pure ((-1 : ℚ), env)
  | _ => do
      let b ← env.crash a
      if b then
        pure ((-5 : ℚ), { env with crash_count := env.crash_count + 1 })
      else
        pure ((0 : ℚ), env)

/-- `Environment::transition_state` from src/lib.rs. -/
def Environment.transition_state (env : Environment) (a : Action) :
    Option Environment := do
  let (x, y) := env.robot_coordinates
  match a with
  | Action.MoveNorth => do
      let dimM1 ← subUsize env.grid_dimension 1
      if x < dimM1 then pure { env with robot_coordinates := (x + 1, y) }
      else pure env
  | Action.MoveSouth =>
      if x > 0 then pure { env with robot_coordinates := (x - 1, y) }
      else pure env
  | Action.MoveEast => do
      let dimM1 ← subUsize env.grid_dimension 1
      if y < dimM1 then pure { env with robot_coordinates := (x, y + 1) }
      else pure env
  | Action.MoveWest =>
      if y > 0 then pure { env with robot_coordinates := (x, y - 1) }
      else pure env
  | Action.PickUpCan => do
      let c ← getCell env.grid x y
      if c = LocationValue.Can then do
        let g ← setCell env.grid x y LocationValue.Empty
        pure { env with grid := g }
      else pure env

/-- One execution of the `while cans_assigned < number_of_cans` loop of
`random_grid` from src/lib.rs.  The two `random_range(0..dimension)`
draws of iteration `n` are modelled by the externally supplied stream
`samples n`; the `HashSet` is modelled by the list `already`; `fuel`
bounds the number of iterations, `none` meaning the loop has not
finished within `fuel` iterations (or an index panicked). -/
def random_grid_loop (number_of_cans : ℕ) (samples : ℕ → ℕ × ℕ) :
    ℕ → ℕ → ℕ → List (ℕ × ℕ) → List (List LocationValue) →
      Option (List (List LocationValue))
  | 0, _, cans_assigned, _, grid =>
      if cans_assigned < number_of_cans then none else some grid
  | fuel + 1, n, cans_assigned, already, grid =>
      if cans_assigned < number_of_cans then
        let xy := samples n
        if xy ∈ already then
          random_grid_loop number_of_cans samples fuel (n + 1)
            cans_assigned already grid
        else
          match setCell grid xy.1 xy.2 LocationValue.Can with
          | none => none
          | some g =>
              random_grid_loop number_of_cans samples fuel (n + 1)
                (cans_assigned + 1) (xy :: already) g
      else some grid

/-- `random_grid` from src/lib.rs: an all-`Empty` `dimension × dimension`
grid, then the placement loop. -/
def random_grid (dimension number_of_cans : ℕ) (samples : ℕ → ℕ × ℕ)
    (fuel : ℕ) : Option (List (List LocationValue)) :=
  random_grid_loop number_of_cans samples fuel 0 0 []
    (List.replicate dimension (List.replicate dimension LocationValue.Empty))

/-- Number of `Can` cells of a grid, used to state properties about
`random_grid` results. -/
def countCanGrid (g : List (List LocationValue)) : ℕ :=
  (g.map fun row => row.countP fun v => decide (v = LocationValue.Can)).sum

/-- `Robot` from src/lib.rs. -/
structure Robot where
  previous_choice : Option (Percept × Action)
  q_matrix : List (List ℚ)
  epsilon : ℚ
  percept_map : List (Percept × ℕ)

/-- `Robot::new` from src/lib.rs. -/
def Robot.new (epsilon : ℚ) : Robot :=
  { previous_choice := none
  , q_matrix := List.replicate (3 ^ 5) (List.replicate 5 (0 : ℚ))
  , epsilon := epsilon
  , percept_map := generate_percept_map }

/-- `Robot::all_actions_same` from src/lib.rs: the fold compares each
entry with its predecessor, starting from `actions[0]`. -/
def Robot.all_actions_same (r : Robot) (p : Percept) : Option Bool := do
  let percept_index ← mapLookup r.percept_map p
  let actions ← r.q_matrix[percept_index]?
  let a0 ← actions[0]?
  pure (actions.foldl
    (fun acc score => (score, acc.2 && decide (acc.1 = score)))
    (a0, true)).2

/-- The `for (i, item) in actions.iter().enumerate()` loop of
`Robot::max_action_for_percept` from src/lib.rs, collecting the
candidate indices and the running maximum score. -/
def maxLoop : List ℚ → ℕ → List ℕ → ℚ → List ℕ × ℚ
  | [], _, candidates, max_score => (candidates, max_score)
  | item :: rest, i, candidates, max_score =>
      if item = max_score then
        maxLoop rest (i + 1) (candidates ++ [i]) max_score
      else if item > max_score then
        maxLoop rest (i + 1) [i] item
      else
        maxLoop rest (i + 1) candidates max_score

/-- `Robot::max_action_for_percept` from src/lib.rs.  The draw of
`random_range(0..candidates.len())` is modelled by `k % candidates.length`;
the `assert!(!candidates.is_empty())` is modelled by returning `none`
when the candidate list is empty. -/
def Robot.max_action_for_percept (r : Robot) (p : Percept) (k : ℕ) :
    Option (Action × ℚ) := do
  let percept_index ← mapLookup r.percept_map p
  let actions ← r.q_matrix[percept_index]?
  let a0 ← actions[0]?
  let res := maxLoop actions 0 [] a0
  if res.1.isEmpty then none
  else do
    let choice ← res.1[k % res.1.length]?
    pure (Action.fromUsize choice, res.2)

/-- `Robot::select_action` from src/lib.rs.  The draw of
`random_range(0.0..1.0)` is the parameter `rand`, the draw inside
`random_action()` is `nrand`, and the tie-break draw inside
`max_action_for_percept` is `k`.  The short-circuit `||` of the source
evaluates `all_actions_same` only when `epsilon > rand` fails. -/
def Robot.select_action (r : Robot) (p : Percept) (rand : ℚ)
    (nrand k : ℕ) : Option (Action × Robot) := do
  let cond ←
    if r.epsilon > rand then pure true else r.all_actions_same p
  let out ←
    if cond then pure (random_action nrand)
    else do
      let m ← r.max_action_for_percept p k
      pure m.1
  pure (out, { r with previous_choice := some (p, out) })

/-- `Robot::reward` from src/lib.rs.  Note that the source never clears
`previous_choice`: the returned robot keeps the same pending pair.  The
tie-break draw of the inner `max_action_for_percept` call is `k` (its
value is irrelevant, only the returned maximum is used). -/
def Robot.reward (r : Robot) (reward_amount eta gamma : ℚ)
    (resulting_percept : Percept) (k : ℕ) : Option Robot :=
  match r.previous_choice with
  | none => some r
  | some (p, a) => do
      let percept_index ← mapLookup r.percept_map p
      let action_index := Action.toUsize a
      let row ← r.q_matrix[percept_index]?
      let current_q ← row[action_index]?
      let m ← r.max_action_for_percept resulting_percept k
      let max_aprime_q := m.2
      let new_value :=
        current_q + eta * (reward_amount + gamma * max_aprime_q - current_q)
      pure { r with
        q_matrix :=
          r.q_matrix.set percept_index (row.set action_index new_value) }

/-! ## Derived notions used to state properties -/

/-- Position of a cell value in `all_locations`. -/
def locIdx : LocationValue → ℕ
  | .Empty => 0
  | .Can => 1
  | .Wall => 2

/-- The index that the enumeration order of `generate_percept_map`
assigns to a percept: `north` is the outermost loop, `current` the
innermost. -/
def perceptIdx (p : Percept) : ℕ :=
  81 * locIdx p.north + 27 * locIdx p.south + 9 * locIdx p.east +
    3 * locIdx p.west + locIdx p.current

/-- Well-formedness of an environment: positive dimension, a square
`dimension × dimension` grid, robot strictly inside the grid. -/
def Environment.wf (env : Environment) : Prop :=
  1 ≤ env.grid_dimension ∧
  env.grid.length = env.grid_dimension ∧
  (∀ row ∈ env.grid, row.length = env.grid_dimension) ∧
  env.robot_coordinates.1 < env.grid_dimension ∧
  env.robot_coordinates.2 < env.grid_dimension

instance (env : Environment) : Decidable env.wf := by
  unfold Environment.wf; infer_instance

/-! ## Helper lemmas about the percept map -/

set_option maxHeartbeats 4000000 in
set_option maxRecDepth 200000 in
/-- Looking up any percept in the generated map yields its enumeration
index. -/
lemma mapLookup_generate (p : Percept) :
    mapLookup generate_percept_map p = some (perceptIdx p) := by
  revert p; decide

set_option maxRecDepth 4000 in
lemma perceptIdx_lt (p : Percept) : perceptIdx p < 243 := by
  revert p; decide

set_option maxHeartbeats 4000000 in
set_option maxRecDepth 100000 in
lemma generate_keys_nodup : (generate_percept_map.map Prod.fst).Nodup := by
  decide

set_option maxHeartbeats 4000000 in
set_option maxRecDepth 200000 in
lemma generate_vals_range :
    generate_percept_map.map Prod.snd = List.range 243 := by
  decide

lemma generate_length : generate_percept_map.length = 243 := by
  have h := congrArg List.length generate_vals_range
  simpa using h

lemma mem_generate (p : Percept) :
    (p, perceptIdx p) ∈ generate_percept_map := by
  have h := mapLookup_generate p
  unfold mapLookup at h
  cases hf : generate_percept_map.find? fun e => decide (e.1 = p) with
  | none => rw [hf] at h; simp at h
  | some e =>
      rw [hf] at h
      simp only [Option.map_some'] at h
      have he : e.1 = p := by simpa using List.find?_some hf
      have hm := List.mem_of_find?_eq_some hf
      have : e = (p, perceptIdx p) := by
        cases e with
        | mk e1 e2 =>
            simp only at he
            simp only [Option.some.injEq] at h
            rw [he, h]
      rw [this] at hm
      exact hm

/-! ## Helper lemmas about grid access and counting -/

lemma getD_of_lt {α : Type} (g : List α) (x : ℕ) (dflt : α)
    (hx' : x < g.length) : g.getD x dflt = g[x] := by
  rw [List.getD_eq_getElem?_getD, List.getElem?_eq_getElem hx']
  rfl

lemma getCell_eq_some {g : List (List LocationValue)} {d x y : ℕ}
    (hlen : g.length = d) (hrow : ∀ row ∈ g, row.length = d)
    (hx : x < d) (hy : y < d) :
    getCell g x y = some (getCellD g x y) := by
  have hx' : x < g.length := by omega
  have hmem : g[x] ∈ g := List.getElem_mem hx'
  have hylen : y < g[x].length := by rw [hrow _ hmem]; omega
  unfold getCell getCellD
  rw [getD_of_lt _ _ _ hx', getD_of_lt _ _ _ hylen]
  rw [List.getElem?_eq_getElem hx']
  simp only [Option.bind_eq_bind, Option.some_bind]
  rw [List.getElem?_eq_getElem hylen]

lemma setCell_eq_some {g : List (List LocationValue)} {d x y : ℕ}
    (hlen : g.length = d) (hrow : ∀ row ∈ g, row.length = d)
    (hx : x < d) (hy : y < d) (v : LocationValue) :
    setCell g x y v = some (g.set x ((g.getD x []).set y v)) := by
  have hx' : x < g.length := by omega
  have hmem : g[x] ∈ g := List.getElem_mem hx'
  have hylen : y < g[x].length := by rw [hrow _ hmem]; omega
  unfold setCell
  rw [List.getElem?_eq_getElem hx']
  simp only [Option.bind_eq_bind, Option.some_bind]
  rw [if_pos hylen]
  rw [List.getD_eq_getElem?_getD, List.getElem?_eq_getElem hx']
  rfl

lemma set_dims {g : List (List LocationValue)} {d x : ℕ}
    (hlen : g.length = d) (hrow : ∀ row ∈ g, row.length = d)
    {row' : List LocationValue} (hrow' : row'.length = d) :
    (g.set x row').length = d ∧ ∀ row ∈ g.set x row', row.length = d := by
  constructor
  · rw [List.length_set]; exact hlen
  · intro row hmem
    rcases List.mem_or_eq_of_mem_set hmem with h | h
    · exact hrow _ h
    · rw [h]; exact hrow'

lemma length_set_getD {g : List (List LocationValue)} {d x y : ℕ}
    (hrow : ∀ row ∈ g, row.length = d) (hx : x < g.length)
    (v : LocationValue) : ((g.getD x []).set y v).length = d := by
  rw [List.length_set, getD_of_lt _ _ _ hx]
  exact hrow _ (List.getElem_mem hx)

lemma getCellD_set {g : List (List LocationValue)} {d x y : ℕ}
    (hlen : g.length = d) (hrow : ∀ row ∈ g, row.length = d)
    (hx : x < d) (hy : y < d) (v : LocationValue) (x' y' : ℕ) :
    getCellD (g.set x ((g.getD x []).set y v)) x' y' =
      if x' = x ∧ y' = y then v else getCellD g x' y' := by
  have hx' : x < g.length := by omega
  have hylen : y < g[x].length := by
    rw [hrow _ (List.getElem_mem hx')]; omega
  unfold getCellD
  rw [getD_of_lt g x [] hx']
  rw [List.getD_eq_getElem?_getD (g.set x (g[x].set y v)) x' [],
    List.getElem?_set]
  by_cases hxx : x = x'
  · subst hxx
    rw [if_pos rfl, if_pos hx']
    simp only [Option.getD_some]
    rw [List.getD_eq_getElem?_getD (g[x].set y v) y' LocationValue.Empty,
      List.getElem?_set]
    by_cases hyy : y = y'
    · subst hyy
      rw [if_pos rfl, if_pos hylen]
      simp
    · rw [if_neg hyy]
      simp only [true_and]
      rw [if_neg (fun hc => hyy hc.symm), getD_of_lt g x [] hx',
        List.getD_eq_getElem?_getD (g[x]) y' LocationValue.Empty]
  · rw [if_neg hxx]
    have hne : ¬(x' = x ∧ y' = y) := fun hc => hxx hc.1.symm
    rw [if_neg hne, List.getD_eq_getElem?_getD g x' []]

/-- Effect of `List.set` on `countP`, stated additively to avoid
truncated subtraction. -/
lemma countP_set (p : LocationValue → Bool) :
    ∀ (l : List LocationValue) (n : ℕ), n < l.length →
      ∀ v, (l.set n v).countP p + (if p (l.getD n .Empty) then 1 else 0) =
        l.countP p + (if p v then 1 else 0)
  | [], n, h, v => by simp at h
  | a :: l, 0, _, v => by
      simp only [List.set_cons_zero, List.getD_cons_zero, List.countP_cons]
      omega
  | a :: l, n + 1, h, v => by
      simp only [List.set_cons_succ, List.getD_cons_succ, List.countP_cons]
      have ih := countP_set p l n (by simpa using h) v
      omega

/-- Effect of `List.set` on the sum of a mapped list, stated
additively. -/
lemma sum_map_set (f : List LocationValue → ℕ) :
    ∀ (g : List (List LocationValue)) (n : ℕ), n < g.length →
      ∀ r, ((g.set n r).map f).sum + f (g.getD n []) =
        (g.map f).sum + f r
  | [], n, h, r => by simp at h
  | a :: g, 0, _, r => by
      simp only [List.set_cons_zero, List.getD_cons_zero, List.map_cons,
        List.sum_cons]
      omega
  | a :: g, n + 1, h, r => by
      simp only [List.set_cons_succ, List.getD_cons_succ, List.map_cons,
        List.sum_cons]
      have ih := sum_map_set f g n (by simpa using h) r
      omega

/-- The nested folds of `count_cans` compute `countCanGrid`. -/
lemma count_cans_eq (env : Environment) :
    env.count_cans = countCanGrid env.grid := by
  unfold Environment.count_cans countCanGrid
  have hrow : ∀ (row : List LocationValue) (a : ℕ),
      row.foldl
        (fun row_sum space =>
          match space with
          | LocationValue.Can => row_sum + 1
          | LocationValue.Empty => row_sum
          | LocationValue.Wall => row_sum) a =
        a + row.countP fun v => decide (v = LocationValue.Can) := by
    intro row
    induction row with
    | nil => intro a; simp
    | cons b row ih =>
        intro a
        simp only [List.foldl_cons, List.countP_cons]
        rw [ih]
        cases b <;> (simp; try omega)
  have hmain : ∀ (g : List (List LocationValue)) (a : ℕ),
      g.foldl
        (fun overall_sum row =>
          overall_sum +
            row.foldl
              (fun row_sum space =>
                match space with
                | LocationValue.Can => row_sum + 1
                | LocationValue.Empty => row_sum
                | LocationValue.Wall => row_sum) 0) a =
        a + ((g.map fun row =>
          row.countP fun v => decide (v = LocationValue.Can)).sum) := by
    intro g
    induction g with
    | nil => intro a; simp
    | cons row g ih =>
        intro a
        simp only [List.foldl_cons, List.map_cons, List.sum_cons]
        rw [ih, hrow]
        omega
  rw [hmain]
  omega


/-! ## Evaluation of Environment operations on well-formed states -/

lemma subUsize_pos {d : ℕ} (hd : 1 ≤ d) : subUsize d 1 = some (d - 1) := by
  unfold subUsize; rw [if_pos hd]

lemma ite_bind {α β : Type} {c : Prop} [Decidable c] (x y : Option α)
    (k : α → Option β) :
    (if c then x.bind k else y.bind k) = (if c then x else y).bind k := by
  split <;> rfl

lemma create_percept_wf (env : Environment) (h : env.wf) :
    env.create_percept = some
      { current := getCellD env.grid env.robot_coordinates.1 env.robot_coordinates.2
      , north :=
          if env.robot_coordinates.1 = env.grid_dimension - 1 then LocationValue.Wall
          else getCellD env.grid (env.robot_coordinates.1 + 1) env.robot_coordinates.2
      , south :=
          if env.robot_coordinates.1 = 0 then LocationValue.Wall
          else getCellD env.grid (env.robot_coordinates.1 - 1) env.robot_coordinates.2
      , east :=
          if env.robot_coordinates.2 = env.grid_dimension - 1 then LocationValue.Wall
          else getCellD env.grid env.robot_coordinates.2 (env.robot_coordinates.2 + 1)
      , west :=
          if env.robot_coordinates.2 = 0 then LocationValue.Wall
          else getCellD env.grid env.robot_coordinates.1 (env.robot_coordinates.2 - 1) } := by
  obtain ⟨hd, hlen, hrow, hx, hy⟩ := h
  rcases env with ⟨d, ic, ⟨x, y⟩, cc, g⟩
  simp only at hd hlen hrow hx hy ⊢
  have hsouth :
      (if x = 0 then pure LocationValue.Wall else getCell g (x - 1) y) =
        some (if x = 0 then LocationValue.Wall else getCellD g (x - 1) y) := by
    by_cases h0 : x = 0
    · rw [if_pos h0, if_pos h0]; rfl
    · rw [if_neg h0, if_neg h0]
      exact getCell_eq_some hlen hrow (by omega) hy
  have hnorth :
      (if x = d - 1 then pure LocationValue.Wall else getCell g (x + 1) y) =
        some (if x = d - 1 then LocationValue.Wall else getCellD g (x + 1) y) := by
    by_cases h1 : x = d - 1
    · rw [if_pos h1, if_pos h1]; rfl
    · rw [if_neg h1, if_neg h1]
      exact getCell_eq_some hlen hrow (by omega) hy
  have hwest :
      (if y = 0 then pure LocationValue.Wall else getCell g x (y - 1)) =
        some (if y = 0 then LocationValue.Wall else getCellD g x (y - 1)) := by
    by_cases h0 : y = 0
    · rw [if_pos h0, if_pos h0]; rfl
    · rw [if_neg h0, if_neg h0]
      exact getCell_eq_some hlen hrow hx (by omega)
  have heast :
      (if y = d - 1 then pure LocationValue.Wall else getCell g y (y + 1)) =
        some (if y = d - 1 then LocationValue.Wall else getCellD g y (y + 1)) := by
    by_cases h1 : y = d - 1
    · rw [if_pos h1, if_pos h1]; rfl
    · rw [if_neg h1, if_neg h1]
      exact getCell_eq_some hlen hrow (by omega) (by omega)
  unfold Environment.create_percept
  simp only [Option.bind_eq_bind, subUsize_pos hd, Option.some_bind]
  rw [getCell_eq_some hlen hrow hx hy]
  simp only [Option.some_bind]
  rw [ite_bind, hsouth]
  simp only [Option.some_bind]
  rw [ite_bind, hnorth]
  simp only [Option.some_bind]
  rw [ite_bind, hwest]
  simp only [Option.some_bind]
  rw [ite_bind, heast]
  simp only [Option.some_bind]
  rfl


lemma crash_eval (env : Environment) (hd : 1 ≤ env.grid_dimension) (a : Action) :
    env.crash a = some
      ((decide (a = Action.MoveEast) &&
          decide (env.robot_coordinates.2 ≥ env.grid_dimension - 1))
       || (decide (a = Action.MoveWest) && decide (env.robot_coordinates.2 = 0))
       || (decide (a = Action.MoveNorth) &&
          decide (env.robot_coordinates.1 ≥ env.grid_dimension - 1))
       || (decide (a = Action.MoveSouth) && decide (env.robot_coordinates.1 = 0))) := by
  rcases env with ⟨d, ic, ⟨x, y⟩, cc, g⟩
  simp only at hd ⊢
  unfold Environment.crash
  simp only [Option.bind_eq_bind, subUsize_pos hd, Option.some_bind]
  rfl

lemma calculate_reward_move (env : Environment) (a : Action)
    (ha : a ≠ Action.PickUpCan) {b : Bool} (hb : env.crash a = some b) :
    env.calculate_reward a = some
      (if b then ((-5 : ℚ), { env with crash_count := env.crash_count + 1 })
       else ((0 : ℚ), env)) := by
  rcases env with ⟨d, ic, ⟨x, y⟩, cc, g⟩
  cases a with
  | PickUpCan => exact absurd rfl ha
  | MoveNorth =>
      unfold Environment.calculate_reward
      simp only [Option.bind_eq_bind]
      rw [hb]
      simp only [Option.some_bind]
      cases b <;> rfl
  | MoveSouth =>
      unfold Environment.calculate_reward
      simp only [Option.bind_eq_bind]
      rw [hb]
      simp only [Option.some_bind]
      cases b <;> rfl
  | MoveEast =>
      unfold Environment.calculate_reward
      simp only [Option.bind_eq_bind]
      rw [hb]
      simp only [Option.some_bind]
      cases b <;> rfl
  | MoveWest =>
      unfold Environment.calculate_reward
      simp only [Option.bind_eq_bind]
      rw [hb]
      simp only [Option.some_bind]
      cases b <;> rfl

lemma calculate_reward_pickup (env : Environment) (h : env.wf) :
    env.calculate_reward Action.PickUpCan = some
      (if getCellD env.grid env.robot_coordinates.1 env.robot_coordinates.2 =
          LocationValue.Can
       then ((10 : ℚ), env) else ((-1 : ℚ), env)) := by
  obtain ⟨hd, hlen, hrow, hx, hy⟩ := h
  rcases env with ⟨d, ic, ⟨x, y⟩, cc, g⟩
  simp only at hd hlen hrow hx hy ⊢
  unfold Environment.calculate_reward
  simp only [Option.bind_eq_bind]
  rw [getCell_eq_some hlen hrow hx hy]
  simp only [Option.some_bind]
  cases hc : getCellD g x y <;> simp [hc]

lemma transition_moveNorth (env : Environment) (hd : 1 ≤ env.grid_dimension) :
    env.transition_state Action.MoveNorth = some
      (if env.robot_coordinates.1 < env.grid_dimension - 1
       then { env with robot_coordinates :=
                (env.robot_coordinates.1 + 1, env.robot_coordinates.2) }
       else env) := by
  rcases env with ⟨d, ic, ⟨x, y⟩, cc, g⟩
  simp only at hd ⊢
  unfold Environment.transition_state
  simp only [Option.bind_eq_bind, subUsize_pos hd, Option.some_bind]
  split <;> rfl

lemma transition_moveSouth (env : Environment) :
    env.transition_state Action.MoveSouth = some
      (if 0 < env.robot_coordinates.1
       then { env with robot_coordinates :=
                (env.robot_coordinates.1 - 1, env.robot_coordinates.2) }
       else env) := by
  rcases env with ⟨d, ic, ⟨x, y⟩, cc, g⟩
  unfold Environment.transition_state
  dsimp only
  split <;> rfl

lemma transition_moveEast (env : Environment) (hd : 1 ≤ env.grid_dimension) :
    env.transition_state Action.MoveEast = some
      (if env.robot_coordinates.2 < env.grid_dimension - 1
       then { env with robot_coordinates :=
                (env.robot_coordinates.1, env.robot_coordinates.2 + 1) }
       else env) := by
  rcases env with ⟨d, ic, ⟨x, y⟩, cc, g⟩
  simp only at hd ⊢
  unfold Environment.transition_state
  simp only [Option.bind_eq_bind, subUsize_pos hd, Option.some_bind]
  split <;> rfl

lemma transition_moveWest (env : Environment) :
    env.transition_state Action.MoveWest = some
      (if 0 < env.robot_coordinates.2
       then { env with robot_coordinates :=
                (env.robot_coordinates.1, env.robot_coordinates.2 - 1) }
       else env) := by
  rcases env with ⟨d, ic, ⟨x, y⟩, cc, g⟩
  unfold Environment.transition_state
  dsimp only
  split <;> rfl

lemma transition_pickup (env : Environment) (h : env.wf) :
    env.transition_state Action.PickUpCan = some
      (if getCellD env.grid env.robot_coordinates.1 env.robot_coordinates.2 =
          LocationValue.Can
       then { env with grid :=
                (env.grid.set env.robot_coordinates.1
                  ((env.grid.getD env.robot_coordinates.1 []).set
                    env.robot_coordinates.2 LocationValue.Empty)) }
       else env) := by
  obtain ⟨hd, hlen, hrow, hx, hy⟩ := h
  rcases env with ⟨d, ic, ⟨x, y⟩, cc, g⟩
  simp only at hd hlen hrow hx hy ⊢
  unfold Environment.transition_state
  simp only [Option.bind_eq_bind]
  rw [getCell_eq_some hlen hrow hx hy]
  simp only [Option.some_bind]
  by_cases hc : getCellD g x y = LocationValue.Can
  · rw [if_pos hc, if_pos hc, setCell_eq_some hlen hrow hx hy]
    rfl
  · rw [if_neg hc, if_neg hc]
    rfl


lemma countCan_set_pickup {g : List (List LocationValue)} {d x y : ℕ}
    (hlen : g.length = d) (hrow : ∀ row ∈ g, row.length = d)
    (hx : x < d) (hy : y < d)
    (hcan : getCellD g x y = LocationValue.Can) :
    countCanGrid (g.set x ((g.getD x []).set y LocationValue.Empty)) + 1 =
      countCanGrid g := by
  have hx' : x < g.length := by omega
  have hylen : y < (g.getD x []).length := by
    rw [getD_of_lt g x [] hx', hrow _ (List.getElem_mem hx')]; omega
  unfold countCanGrid
  have hsum := sum_map_set
    (fun row => row.countP fun v => decide (v = LocationValue.Can)) g x hx'
    ((g.getD x []).set y LocationValue.Empty)
  have hcnt := countP_set (fun v => decide (v = LocationValue.Can))
    (g.getD x []) y hylen LocationValue.Empty
  have hgd : (g.getD x []).getD y LocationValue.Empty = LocationValue.Can := hcan
  rw [hgd] at hcnt
  have hone : (if decide (LocationValue.Can = LocationValue.Can) = true
      then (1 : ℕ) else 0) = 1 := rfl
  have hzero : (if decide (LocationValue.Empty = LocationValue.Can) = true
      then (1 : ℕ) else 0) = 0 := rfl
  rw [hone, hzero] at hcnt
  omega

lemma noWall_set {g : List (List LocationValue)} {x y : ℕ}
    (hW : ∀ row ∈ g, ∀ v ∈ row, v ≠ LocationValue.Wall) :
    ∀ row ∈ g.set x ((g.getD x []).set y LocationValue.Empty),
      ∀ v ∈ row, v ≠ LocationValue.Wall := by
  intro row hr v hv
  rcases List.mem_or_eq_of_mem_set hr with hrm | hrm
  · exact hW _ hrm _ hv
  · subst hrm
    rcases List.mem_or_eq_of_mem_set hv with hvm | hvm
    · by_cases hx' : x < g.length
      · refine hW (g.getD x []) ?_ _ hvm
        rw [getD_of_lt g x [] hx']
        exact List.getElem_mem hx'
      · rw [List.getD_eq_getElem?_getD, List.getElem?_eq_none (by omega)] at hvm
        simp at hvm
    · rw [hvm]
      decide

/-- Environment exhibiting the asymmetric east read of `create_percept`:
dimension 2, robot at `(1, 0)`; the robot's true east neighbour
`grid[1][1]` holds a can, while `grid[0][1]` (the cell the code reads)
is empty. -/
def envEastBug : Environment :=
  { grid_dimension := 2, initial_number_of_cans := 1
  , robot_coordinates := (1, 0), crash_count := 0
  , grid := [[LocationValue.Empty, LocationValue.Empty],
             [LocationValue.Empty, LocationValue.Can]] }

/-- **C1** (code bug): `create_percept` is specified to report the east
neighbour `grid[x][y+1]`, but the source reads `grid[y][y+1]`.  On
`envEastBug` (robot at `(1,0)`, east neighbour `grid[1][1] = Can`) the
returned percept has `east = Empty` even though the east neighbour cell
holds `Can`, so the east field does not equal the east neighbour's
content. -/
theorem create_percept_east_mismatch :
    envEastBug.create_percept =
      some { current := LocationValue.Empty, north := LocationValue.Wall
           , south := LocationValue.Empty, east := LocationValue.Empty
           , west := LocationValue.Wall } ∧
    getCell envEastBug.grid 1 1 = some LocationValue.Can ∧
    Option.map Percept.east envEastBug.create_percept ≠
      getCell envEastBug.grid 1 1 := by
  refine ⟨by decide, by decide, by decide⟩

/-- **C10**: on any well-formed environment (positive dimension, square
grid, robot strictly inside) every grid access performed by
`create_percept`, `crash`, `calculate_reward` and `transition_state`
is in bounds and no `usize` subtraction underflows, so all four return
`some`; with `grid_dimension = 0` the precondition is necessary:
`create_percept` and `crash` hit an out-of-range access resp. the
underflowing `grid_dimension - 1`. -/
theorem index_safety (env : Environment) (h : env.wf) :
    (∃ p, env.create_percept = some p) ∧
    (∀ a, ∃ b, env.crash a = some b) ∧
    (∀ a, ∃ res, env.calculate_reward a = some res) ∧
    (∀ a, ∃ env2, env.transition_state a = some env2) ∧
    (Environment.new 0 0 (0, 0)).create_percept = none ∧
    (Environment.new 0 0 (0, 0)).crash Action.MoveEast = none := by
  refine ⟨⟨_, create_percept_wf env h⟩,
    fun a => ⟨_, crash_eval env h.1 a⟩, ?_, ?_, by decide, by decide⟩
  · intro a
    cases a with
    | PickUpCan => exact ⟨_, calculate_reward_pickup env h⟩
    | MoveNorth =>
        exact ⟨_, calculate_reward_move env _ (by decide) (crash_eval env h.1 _)⟩
    | MoveSouth =>
        exact ⟨_, calculate_reward_move env _ (by decide) (crash_eval env h.1 _)⟩
    | MoveEast =>
        exact ⟨_, calculate_reward_move env _ (by decide) (crash_eval env h.1 _)⟩
    | MoveWest =>
        exact ⟨_, calculate_reward_move env _ (by decide) (crash_eval env h.1 _)⟩
  · intro a
    cases a with
    | PickUpCan => exact ⟨_, transition_pickup env h⟩
    | MoveNorth => exact ⟨_, transition_moveNorth env h.1⟩
    | MoveSouth => exact ⟨_, transition_moveSouth env⟩
    | MoveEast => exact ⟨_, transition_moveEast env h.1⟩
    | MoveWest => exact ⟨_, transition_moveWest env⟩

/-- Witness for `index_safety` at a concrete environment. -/
theorem index_safety_witness :
    (Environment.new 2 0 (0, 0)).wf ∧
    (∃ p, (Environment.new 2 0 (0, 0)).create_percept = some p) := by
  refine ⟨by decide, (index_safety (Environment.new 2 0 (0, 0)) (by decide)).1⟩


/-- **C5**: from any well-formed state, a movement action that would
carry the robot across its grid edge gives reward `-5` from
`calculate_reward` (which increments the crash counter by exactly 1),
the subsequent `transition_state` leaves the state — in particular the
robot's position — unchanged, and repeating the same attempt adds `-5`
and one more crash again. -/
theorem crash_step_behaviour (env : Environment) (a : Action) (h : env.wf)
    (hexit :
      (a = Action.MoveNorth ∧
        env.robot_coordinates.1 = env.grid_dimension - 1) ∨
      (a = Action.MoveSouth ∧ env.robot_coordinates.1 = 0) ∨
      (a = Action.MoveEast ∧
        env.robot_coordinates.2 = env.grid_dimension - 1) ∨
      (a = Action.MoveWest ∧ env.robot_coordinates.2 = 0)) :
    ∃ env1 env2,
      env.calculate_reward a = some ((-5 : ℚ), env1) ∧
      env1.robot_coordinates = env.robot_coordinates ∧
      env1.grid = env.grid ∧
      env1.crash_count = env.crash_count + 1 ∧
      env1.transition_state a = some env1 ∧
      env1.calculate_reward a = some ((-5 : ℚ), env2) ∧
      env2.robot_coordinates = env.robot_coordinates ∧
      env2.crash_count = env.crash_count + 2 := by
  obtain ⟨hd, hlen, hrow, hx, hy⟩ := h
  have ha : a ≠ Action.PickUpCan := by
    rcases hexit with ⟨h1, _⟩ | ⟨h1, _⟩ | ⟨h1, _⟩ | ⟨h1, _⟩ <;> subst h1 <;>
      decide
  have hcrash : ∀ e : Environment,
      e.grid_dimension = env.grid_dimension →
      e.robot_coordinates = env.robot_coordinates → e.crash a = some true := by
    intro e he hrc
    rw [crash_eval e (by omega) a]
    rw [he, hrc]
    rcases hexit with ⟨h1, h2⟩ | ⟨h1, h2⟩ | ⟨h1, h2⟩ | ⟨h1, h2⟩ <;> subst h1 <;>
      simp [h2]
  refine ⟨{ env with crash_count := env.crash_count + 1 },
    { env with crash_count := env.crash_count + 2 }, ?_, rfl, rfl, rfl, ?_,
    ?_, rfl, rfl⟩
  · rw [calculate_reward_move env a ha (hcrash env rfl rfl)]
    rfl
  · rcases hexit with ⟨h1, h2⟩ | ⟨h1, h2⟩ | ⟨h1, h2⟩ | ⟨h1, h2⟩ <;> subst h1
    · rw [transition_moveNorth
        { env with crash_count := env.crash_count + 1 } hd]
      rw [if_neg (by dsimp only; omega)]
    · rw [transition_moveSouth
        { env with crash_count := env.crash_count + 1 }]
      rw [if_neg (by dsimp only; omega)]
    · rw [transition_moveEast
        { env with crash_count := env.crash_count + 1 } hd]
      rw [if_neg (by dsimp only; omega)]
    · rw [transition_moveWest
        { env with crash_count := env.crash_count + 1 }]
      rw [if_neg (by dsimp only; omega)]
  · rw [calculate_reward_move
      { env with crash_count := env.crash_count + 1 } a ha (hcrash _ rfl rfl)]
    rfl

/-- Witness for `crash_step_behaviour`: a 2×2 empty grid with the robot
at `(0, 0)` attempting to move west. -/
theorem crash_step_behaviour_witness :
    (Environment.new 2 0 (0, 0)).wf ∧
    ∃ env1 env2,
      (Environment.new 2 0 (0, 0)).calculate_reward Action.MoveWest =
        some ((-5 : ℚ), env1) ∧
      env1.robot_coordinates = (Environment.new 2 0 (0, 0)).robot_coordinates ∧
      env1.grid = (Environment.new 2 0 (0, 0)).grid ∧
      env1.crash_count = (Environment.new 2 0 (0, 0)).crash_count + 1 ∧
      env1.transition_state Action.MoveWest = some env1 ∧
      env1.calculate_reward Action.MoveWest = some ((-5 : ℚ), env2) ∧
      env2.robot_coordinates = (Environment.new 2 0 (0, 0)).robot_coordinates ∧
      env2.crash_count = (Environment.new 2 0 (0, 0)).crash_count + 2 := by
  refine ⟨by decide, crash_step_behaviour (Environment.new 2 0 (0, 0))
    Action.MoveWest (by decide) (by decide)⟩


/-- **C8**: from any well-formed state, `transition_state` (a) never
increases the number of `Can` cells — pickup on a `Can` cell decreases
it by exactly 1, every other case leaves the grid unchanged — (b)
preserves freedom from stored `Wall` cells, and (c) keeps the robot
strictly inside the grid. -/
theorem transition_state_invariants (env : Environment) (a : Action)
    (h : env.wf) :
    ∃ env2, env.transition_state a = some env2 ∧
      env2.grid_dimension = env.grid_dimension ∧
      env2.count_cans ≤ env.count_cans ∧
      ((a = Action.PickUpCan ∧
          getCellD env.grid env.robot_coordinates.1 env.robot_coordinates.2 =
            LocationValue.Can) →
        env2.count_cans + 1 = env.count_cans) ∧
      (¬(a = Action.PickUpCan ∧
          getCellD env.grid env.robot_coordinates.1 env.robot_coordinates.2 =
            LocationValue.Can) →
        env2.grid = env.grid) ∧
      ((∀ row ∈ env.grid, ∀ v ∈ row, v ≠ LocationValue.Wall) →
        ∀ row ∈ env2.grid, ∀ v ∈ row, v ≠ LocationValue.Wall) ∧
      env2.robot_coordinates.1 < env2.grid_dimension ∧
      env2.robot_coordinates.2 < env2.grid_dimension := by
  obtain ⟨hd, hlen, hrow, hx, hy⟩ := h
  cases a with
  | MoveNorth =>
      refine ⟨_, transition_moveNorth env hd, ?_⟩
      by_cases hc : env.robot_coordinates.1 < env.grid_dimension - 1
      · rw [if_pos hc]
        refine ⟨rfl, le_refl _, ?_, fun _ => rfl, fun hW => hW, ?_, ?_⟩
        · intro hpk
          exact absurd hpk.1 (by decide)
        · dsimp only; omega
        · dsimp only; omega
      · rw [if_neg hc]
        refine ⟨rfl, le_refl _, ?_, fun _ => rfl, fun hW => hW, hx, hy⟩
        intro hpk
        exact absurd hpk.1 (by decide)
  | MoveSouth =>
      refine ⟨_, transition_moveSouth env, ?_⟩
      by_cases hc : 0 < env.robot_coordinates.1
      · rw [if_pos hc]
        refine ⟨rfl, le_refl _, ?_, fun _ => rfl, fun hW => hW, ?_, ?_⟩
        · intro hpk
          exact absurd hpk.1 (by decide)
        · dsimp only; omega
        · dsimp only; omega
      · rw [if_neg hc]
        refine ⟨rfl, le_refl _, ?_, fun _ => rfl, fun hW => hW, hx, hy⟩
        intro hpk
        exact absurd hpk.1 (by decide)
  | MoveEast =>
      refine ⟨_, transition_moveEast env hd, ?_⟩
      by_cases hc : env.robot_coordinates.2 < env.grid_dimension - 1
      · rw [if_pos hc]
        refine ⟨rfl, le_refl _, ?_, fun _ => rfl, fun hW => hW, ?_, ?_⟩
        · intro hpk
          exact absurd hpk.1 (by decide)
        · dsimp only; omega
        · dsimp only; omega
      · rw [if_neg hc]
        refine ⟨rfl, le_refl _, ?_, fun _ => rfl, fun hW => hW, hx, hy⟩
        intro hpk
        exact absurd hpk.1 (by decide)
  | MoveWest =>
      refine ⟨_, transition_moveWest env, ?_⟩
      by_cases hc : 0 < env.robot_coordinates.2
      · rw [if_pos hc]
        refine ⟨rfl, le_refl _, ?_, fun _ => rfl, fun hW => hW, ?_, ?_⟩
        · intro hpk
          exact absurd hpk.1 (by decide)
        · dsimp only; omega
        · dsimp only; omega
      · rw [if_neg hc]
        refine ⟨rfl, le_refl _, ?_, fun _ => rfl, fun hW => hW, hx, hy⟩
        intro hpk
        exact absurd hpk.1 (by decide)
  | PickUpCan =>
      refine ⟨_, transition_pickup env ⟨hd, hlen, hrow, hx, hy⟩, ?_⟩
      by_cases hc : getCellD env.grid env.robot_coordinates.1
          env.robot_coordinates.2 = LocationValue.Can
      · rw [if_pos hc]
        have hcount := countCan_set_pickup hlen hrow hx hy hc
        have hcc : Environment.count_cans
            { env with grid :=
                (env.grid.set env.robot_coordinates.1
                  ((env.grid.getD env.robot_coordinates.1 []).set
                    env.robot_coordinates.2 LocationValue.Empty)) } + 1 =
            env.count_cans := by
          rw [count_cans_eq, count_cans_eq]
          exact hcount
        refine ⟨rfl, by omega, fun _ => hcc, fun hn => absurd ⟨rfl, hc⟩ hn,
          fun hW => noWall_set hW, hx, hy⟩
      · rw [if_neg hc]
        exact ⟨rfl, le_refl _, fun hpk => absurd hpk.2 hc, fun _ => rfl,
          fun hW => hW, hx, hy⟩

/-- Witness for `transition_state_invariants`: pickup on a 2×2 grid
whose current cell holds a can. -/
theorem transition_state_invariants_witness :
    ({ grid_dimension := 2, initial_number_of_cans := 1
     , robot_coordinates := (0, 0), crash_count := 0
     , grid := [[LocationValue.Can, LocationValue.Empty],
                [LocationValue.Empty, LocationValue.Empty]] } :
      Environment).wf ∧
    ∃ env2,
      ({ grid_dimension := 2, initial_number_of_cans := 1
       , robot_coordinates := (0, 0), crash_count := 0
       , grid := [[LocationValue.Can, LocationValue.Empty],
                  [LocationValue.Empty, LocationValue.Empty]] } :
        Environment).transition_state Action.PickUpCan = some env2 ∧
      env2.grid_dimension = 2 ∧
      env2.count_cans ≤ 1 ∧
      env2.count_cans + 1 = 1 := by
  have h := transition_state_invariants
    { grid_dimension := 2, initial_number_of_cans := 1
    , robot_coordinates := (0, 0), crash_count := 0
    , grid := [[LocationValue.Can, LocationValue.Empty],
               [LocationValue.Empty, LocationValue.Empty]] }
    Action.PickUpCan (by decide)
  obtain ⟨env2, h1, h2, h3, h4, _⟩ := h
  exact ⟨by decide, env2, h1, h2, h3, h4 ⟨rfl, by decide⟩⟩


/-! ## Helper lemmas about the action-selection loop -/

lemma le_foldl_max (rest : List ℚ) : ∀ ms : ℚ, ms ≤ rest.foldl max ms := by
  induction rest with
  | nil => intro ms; exact le_refl ms
  | cons a rest ih =>
      intro ms
      exact le_trans (le_max_left ms a) (ih (max ms a))

lemma mem_le_foldl_max (rest : List ℚ) :
    ∀ (ms v : ℚ), v ∈ rest → v ≤ rest.foldl max ms := by
  induction rest with
  | nil => intro ms v hv; cases hv
  | cons a rest ih =>
      intro ms v hv
      rcases List.mem_cons.mp hv with h | h
      · subst h
        exact le_trans (le_max_right ms v) (le_foldl_max rest (max ms v))
      · exact ih (max ms a) v h

lemma foldl_max_mem (rest : List ℚ) :
    ∀ ms : ℚ, rest.foldl max ms = ms ∨ rest.foldl max ms ∈ rest := by
  induction rest with
  | nil => intro ms; exact Or.inl rfl
  | cons a rest ih =>
      intro ms
      rcases ih (max ms a) with h | h
      · rcases max_choice ms a with hc | hc
        · rw [List.foldl_cons, h, hc]
          exact Or.inl rfl
        · rw [List.foldl_cons, h, hc]
          exact Or.inr (List.mem_cons_self a rest)
      · exact Or.inr (List.mem_cons_of_mem a h)

lemma maxLoop_snd (rest : List ℚ) :
    ∀ (i : ℕ) (cand : List ℕ) (ms : ℚ),
      (maxLoop rest i cand ms).2 = rest.foldl max ms := by
  induction rest with
  | nil => intro i cand ms; rfl
  | cons item rest ih =>
      intro i cand ms
      unfold maxLoop
      by_cases h1 : item = ms
      · rw [if_pos h1, ih, List.foldl_cons, h1, max_self]
      · rw [if_neg h1]
        by_cases h2 : item > ms
        · rw [if_pos h2, ih, List.foldl_cons, max_eq_right (le_of_lt h2)]
        · rw [if_neg h2, ih, List.foldl_cons,
            max_eq_left (le_of_not_lt h2)]

lemma maxLoop_fst_mem (rest : List ℚ) :
    ∀ (i : ℕ) (cand : List ℕ) (ms : ℚ) (j : ℕ),
      j ∈ (maxLoop rest i cand ms).1 ↔
        (j ∈ cand ∧ rest.foldl max ms = ms) ∨
        (∃ jj, jj < rest.length ∧ j = i + jj ∧
          rest.getD jj 0 = rest.foldl max ms) := by
  induction rest with
  | nil =>
      intro i cand ms j
      simp [maxLoop]
  | cons item rest ih =>
      intro i cand ms j
      have hms_le : ms ≤ rest.foldl max ms := le_foldl_max rest ms
      unfold maxLoop
      by_cases h1 : item = ms
      · rw [if_pos h1]
        rw [List.foldl_cons, h1, max_self]
        rw [ih]
        constructor
        · rintro (⟨hc, hM⟩ | ⟨jj, hjj, hj, hv⟩)
          · rcases List.mem_append.mp hc with hc | hc
            · exact Or.inl ⟨hc, hM⟩
            · simp only [List.mem_singleton] at hc
              refine Or.inr ⟨0, by simp, by omega, ?_⟩
              simpa [h1] using hM.symm
          · exact Or.inr ⟨jj + 1, by simpa using hjj, by omega, by simpa using hv⟩
        · rintro (⟨hc, hM⟩ | ⟨jj, hjj, hj, hv⟩)
          · exact Or.inl ⟨List.mem_append_left _ hc, hM⟩
          · cases jj with
            | zero =>
                simp only [List.getD_cons_zero] at hv
                exact Or.inl ⟨List.mem_append_right _ (by simp; omega), hv.symm⟩
            | succ jj =>
                exact Or.inr ⟨jj, by simpa using hjj, by omega, by simpa using hv⟩
      · rw [if_neg h1]
        by_cases h2 : item > ms
        · rw [if_pos h2]
          have hM : (item :: rest).foldl max ms = rest.foldl max item := by
            rw [List.foldl_cons, max_eq_right (le_of_lt h2)]
          have hitem_le : item ≤ rest.foldl max item := le_foldl_max rest item
          have hMne : rest.foldl max item ≠ ms :=
            ne_of_gt (lt_of_lt_of_le h2 hitem_le)
          rw [hM, ih]
          constructor
          · rintro (⟨hc, hM2⟩ | ⟨jj, hjj, hj, hv⟩)
            · simp only [List.mem_singleton] at hc
              refine Or.inr ⟨0, by simp, by omega, by simpa using hM2.symm⟩
            · exact Or.inr ⟨jj + 1, by simpa using hjj, by omega, by simpa using hv⟩
          · rintro (⟨hc, hM2⟩ | ⟨jj, hjj, hj, hv⟩)
            · exact absurd hM2 hMne
            · cases jj with
              | zero =>
                  simp only [List.getD_cons_zero] at hv
                  exact Or.inl ⟨by simp; omega, hv.symm⟩
              | succ jj =>
                  exact Or.inr ⟨jj, by simpa using hjj, by omega, by simpa using hv⟩
        · rw [if_neg h2]
          have hlt : item < ms := lt_of_le_of_ne (le_of_not_lt h2) h1
          have hM : (item :: rest).foldl max ms = rest.foldl max ms := by
            rw [List.foldl_cons, max_eq_left (le_of_lt hlt)]
          have hItemNe : item ≠ rest.foldl max ms := by
            intro hcontra
            have := lt_of_lt_of_le hlt hms_le
            rw [hcontra] at this
            exact lt_irrefl _ this
          rw [hM, ih]
          constructor
          · rintro (⟨hc, hM2⟩ | ⟨jj, hjj, hj, hv⟩)
            · exact Or.inl ⟨hc, hM2⟩
            · exact Or.inr ⟨jj + 1, by simpa using hjj, by omega, by simpa using hv⟩
          · rintro (⟨hc, hM2⟩ | ⟨jj, hjj, hj, hv⟩)
            · exact Or.inl ⟨hc, hM2⟩
            · cases jj with
              | zero =>
                  simp only [List.getD_cons_zero] at hv
                  exact absurd hv hItemNe
              | succ jj =>
                  exact Or.inr ⟨jj, by simpa using hjj, by omega, by simpa using hv⟩


/-- Maximum entry of a value-table row, as the selection loop computes
it: fold of `max` over the row starting from its first entry. -/
def rowMax (row : List ℚ) : ℚ := row.foldl max (row.getD 0 0)

/-- The value-table row addressed by a percept. -/
def qRow (r : Robot) (p : Percept) : List ℚ :=
  r.q_matrix.getD (perceptIdx p) []

lemma rowMax_mem (row : List ℚ) (hne : row ≠ []) : rowMax row ∈ row := by
  have hlen : 0 < row.length := List.length_pos.mpr hne
  rcases foldl_max_mem row (row.getD 0 0) with h | h
  · rw [rowMax, h, getD_of_lt row 0 0 hlen]
    exact List.getElem_mem hlen
  · exact h

lemma le_rowMax (row : List ℚ) (v : ℚ) (hv : v ∈ row) : v ≤ rowMax row :=
  mem_le_foldl_max row (row.getD 0 0) v hv

lemma maxLoop_full (row : List ℚ) (hne : row ≠ []) :
    (∀ j, j ∈ (maxLoop row 0 [] (row.getD 0 0)).1 ↔
      (j < row.length ∧ row.getD j 0 = rowMax row)) ∧
    (maxLoop row 0 [] (row.getD 0 0)).2 = rowMax row ∧
    (maxLoop row 0 [] (row.getD 0 0)).1 ≠ [] := by
  have hsnd : (maxLoop row 0 [] (row.getD 0 0)).2 = rowMax row :=
    maxLoop_snd row 0 [] (row.getD 0 0)
  have hmem : ∀ j, j ∈ (maxLoop row 0 [] (row.getD 0 0)).1 ↔
      (j < row.length ∧ row.getD j 0 = rowMax row) := by
    intro j
    rw [maxLoop_fst_mem row 0 [] (row.getD 0 0) j]
    constructor
    · rintro (⟨hc, _⟩ | ⟨jj, hjj, hj, hv⟩)
      · cases hc
      · exact ⟨by omega, by rw [show j = jj by omega]; exact hv⟩
    · rintro ⟨hj, hv⟩
      exact Or.inr ⟨j, hj, by omega, hv⟩
  refine ⟨hmem, hsnd, ?_⟩
  have hmx := rowMax_mem row hne
  rcases List.mem_iff_getElem.mp hmx with ⟨n, hn, hval⟩
  have : n ∈ (maxLoop row 0 [] (row.getD 0 0)).1 := by
    rw [hmem n]
    exact ⟨hn, by rw [getD_of_lt row n 0 hn]; exact hval⟩
  exact List.ne_nil_of_mem this

lemma qRow_mem (r : Robot) (p : Percept) (hlen : r.q_matrix.length = 243) :
    qRow r p ∈ r.q_matrix := by
  have hpi : perceptIdx p < r.q_matrix.length := by
    rw [hlen]; exact perceptIdx_lt p
  rw [qRow, getD_of_lt _ _ _ hpi]
  exact List.getElem_mem hpi

lemma qRow_length (r : Robot) (p : Percept) (hlen : r.q_matrix.length = 243)
    (hrow : ∀ row ∈ r.q_matrix, row.length = 5) : (qRow r p).length = 5 :=
  hrow _ (qRow_mem r p hlen)

lemma max_action_eval (r : Robot) (p : Percept) (k : ℕ)
    (hm : r.percept_map = generate_percept_map)
    (hlen : r.q_matrix.length = 243)
    (hrow : ∀ row ∈ r.q_matrix, row.length = 5) :
    ∃ c, c ∈ (maxLoop (qRow r p) 0 [] ((qRow r p).getD 0 0)).1 ∧
      c = (maxLoop (qRow r p) 0 [] ((qRow r p).getD 0 0)).1.getD
            (k % (maxLoop (qRow r p) 0 [] ((qRow r p).getD 0 0)).1.length) 0 ∧
      r.max_action_for_percept p k = some (Action.fromUsize c, rowMax (qRow r p)) := by
  have hrl : (qRow r p).length = 5 := qRow_length r p hlen hrow
  have hne : qRow r p ≠ [] := by
    intro hcontra
    rw [hcontra] at hrl
    simp at hrl
  have hpi : perceptIdx p < r.q_matrix.length := by
    rw [hlen]; exact perceptIdx_lt p
  have hq : r.q_matrix[perceptIdx p]? = some (qRow r p) := by
    rw [List.getElem?_eq_getElem hpi, qRow, getD_of_lt _ _ _ hpi]
  have h0lt : 0 < (qRow r p).length := by omega
  have h0 : (qRow r p)[0]? = some ((qRow r p).getD 0 0) := by
    rw [List.getElem?_eq_getElem h0lt, getD_of_lt _ _ _ h0lt]
  obtain ⟨hmem, hsnd, hcne⟩ := maxLoop_full (qRow r p) hne
  have hclen : 0 < (maxLoop (qRow r p) 0 [] ((qRow r p).getD 0 0)).1.length :=
    List.length_pos.mpr hcne
  have hmodlt : k % (maxLoop (qRow r p) 0 [] ((qRow r p).getD 0 0)).1.length <
      (maxLoop (qRow r p) 0 [] ((qRow r p).getD 0 0)).1.length :=
    Nat.mod_lt _ hclen
  refine ⟨(maxLoop (qRow r p) 0 [] ((qRow r p).getD 0 0)).1.getD
    (k % (maxLoop (qRow r p) 0 [] ((qRow r p).getD 0 0)).1.length) 0,
    ?_, rfl, ?_⟩
  · rw [getD_of_lt _ _ _ hmodlt]
    exact List.getElem_mem hmodlt
  · unfold Robot.max_action_for_percept
    rw [hm, mapLookup_generate p]
    simp only [Option.bind_eq_bind, Option.some_bind]
    rw [hq]
    simp only [Option.some_bind]
    rw [h0]
    simp only [Option.some_bind]
    rw [if_neg (by rw [List.isEmpty_eq_false.mpr hcne]; exact Bool.false_ne_true)]
    rw [List.getElem?_eq_getElem hmodlt]
    simp only [Option.some_bind]
    rw [hsnd, getD_of_lt _ _ _ hmodlt]
    rfl

lemma foldl_allsame (row : List ℚ) :
    ∀ (x : ℚ) (b : Bool),
      ((row.foldl (fun acc score => (score, acc.2 && decide (acc.1 = score)))
        (x, b)).2 = true) ↔ (b = true ∧ ∀ v ∈ row, v = x) := by
  induction row with
  | nil => intro x b; simp
  | cons a row ih =>
      intro x b
      rw [List.foldl_cons]
      dsimp only
      rw [ih]
      constructor
      · rintro ⟨hb, hall⟩
        obtain ⟨hb1, hb2⟩ := Bool.and_eq_true_iff.mp hb
        have hxa : x = a := of_decide_eq_true hb2
        refine ⟨hb1, fun v hv => ?_⟩
        rcases List.mem_cons.mp hv with h | h
        · rw [h, hxa]
        · rw [hall v h, hxa]
      · rintro ⟨hb, hall⟩
        have hax : a = x := hall a (List.mem_cons_self a row)
        refine ⟨by rw [hb, hax]; simp, fun v hv => ?_⟩
        rw [hall v (List.mem_cons_of_mem a hv), hax]

lemma all_actions_same_eval (r : Robot) (p : Percept)
    (hm : r.percept_map = generate_percept_map)
    (hlen : r.q_matrix.length = 243)
    (hrow : ∀ row ∈ r.q_matrix, row.length = 5) :
    r.all_actions_same p =
      some (decide (∀ v ∈ qRow r p, v = (qRow r p).getD 0 0)) := by
  have hrl : (qRow r p).length = 5 := qRow_length r p hlen hrow
  have hpi : perceptIdx p < r.q_matrix.length := by
    rw [hlen]; exact perceptIdx_lt p
  have hq : r.q_matrix[perceptIdx p]? = some (qRow r p) := by
    rw [List.getElem?_eq_getElem hpi, qRow, getD_of_lt _ _ _ hpi]
  have h0lt : 0 < (qRow r p).length := by omega
  have h0 : (qRow r p)[0]? = some ((qRow r p).getD 0 0) := by
    rw [List.getElem?_eq_getElem h0lt, getD_of_lt _ _ _ h0lt]
  unfold Robot.all_actions_same
  rw [hm, mapLookup_generate p]
  simp only [Option.bind_eq_bind, Option.some_bind]
  rw [hq]
  simp only [Option.some_bind]
  rw [h0]
  simp only [Option.some_bind]
  by_cases hall : ∀ v ∈ qRow r p, v = (qRow r p).getD 0 0
  · rw [decide_eq_true hall]
    have hft := (foldl_allsame (qRow r p) ((qRow r p).getD 0 0) true).mpr
      ⟨rfl, hall⟩
    rw [hft]
    rfl
  · rw [decide_eq_false hall]
    have hne : ((qRow r p).foldl
        (fun acc score => (score, acc.2 && decide (acc.1 = score)))
        ((qRow r p).getD 0 0, true)).2 ≠ true := by
      intro hcontra
      exact hall ((foldl_allsame (qRow r p) ((qRow r p).getD 0 0) true).mp
        hcontra).2
    rw [Bool.eq_false_iff.mpr hne]
    rfl


lemma toUsize_lt (a : Action) : a.toUsize < 5 := by
  cases a <;> decide

lemma toUsize_fromUsize (c : ℕ) (h : c < 5) :
    (Action.fromUsize c).toUsize = c := by
  interval_cases c <;> rfl

/-- **C6**: whenever greedy selection is taken (`r ≥ epsilon`, row not
all identical), `max_action_for_percept` returns the row maximum as the
value, the chosen action always attains that maximum, every maximizing
index is reachable by some tie-break draw (so the candidate set is
exactly the set of maximizers, never a strict subset), and with
`epsilon = 0` and one strict maximum `select_action` always returns the
maximizing action. -/
theorem greedy_selection (r : Robot) (p : Percept)
    (hm : r.percept_map = generate_percept_map)
    (hlen : r.q_matrix.length = 243)
    (hrow : ∀ row ∈ r.q_matrix, row.length = 5) :
    (∀ k, ∃ a : Action, r.max_action_for_percept p k =
        some (a, rowMax (qRow r p)) ∧
      Action.toUsize a < (qRow r p).length ∧
      (qRow r p).getD (Action.toUsize a) 0 = rowMax (qRow r p)) ∧
    (∀ j, j < (qRow r p).length →
      (qRow r p).getD j 0 = rowMax (qRow r p) →
      ∃ k, r.max_action_for_percept p k =
        some (Action.fromUsize j, rowMax (qRow r p))) ∧
    (∀ rand nrand k, r.epsilon ≤ rand →
      ¬(∀ v ∈ qRow r p, v = (qRow r p).getD 0 0) →
      ∃ a r2, r.select_action p rand nrand k = some (a, r2) ∧
        (qRow r p).getD (Action.toUsize a) 0 = rowMax (qRow r p) ∧
        r2 = { r with previous_choice := some (p, a) }) ∧
    (r.epsilon = 0 → ∀ j, j < (qRow r p).length →
      (∀ i, i < (qRow r p).length → i ≠ j →
        (qRow r p).getD i 0 < (qRow r p).getD j 0) →
      ∀ rand nrand k, 0 ≤ rand →
        r.select_action p rand nrand k =
          some (Action.fromUsize j,
            { r with previous_choice := some (p, Action.fromUsize j) })) := by
  have hrl : (qRow r p).length = 5 := qRow_length r p hlen hrow
  have hne : qRow r p ≠ [] := by
    intro hc; rw [hc] at hrl; simp at hrl
  obtain ⟨hmemiff, hsnd, hcne⟩ := maxLoop_full (qRow r p) hne
  have part1 : ∀ k, ∃ a : Action, r.max_action_for_percept p k =
      some (a, rowMax (qRow r p)) ∧
      Action.toUsize a < (qRow r p).length ∧
      (qRow r p).getD (Action.toUsize a) 0 = rowMax (qRow r p) := by
    intro k
    obtain ⟨c, hcmem, _, heq⟩ := max_action_eval r p k hm hlen hrow
    obtain ⟨hclt, hcval⟩ := (hmemiff c).mp hcmem
    refine ⟨Action.fromUsize c, heq, ?_, ?_⟩
    · rw [toUsize_fromUsize c (by omega)]
      exact hclt
    · rw [toUsize_fromUsize c (by omega)]
      exact hcval
  have part2 : ∀ j, j < (qRow r p).length →
      (qRow r p).getD j 0 = rowMax (qRow r p) →
      ∃ k, r.max_action_for_percept p k =
        some (Action.fromUsize j, rowMax (qRow r p)) := by
    intro j hj hjval
    have hjmem : j ∈ (maxLoop (qRow r p) 0 [] ((qRow r p).getD 0 0)).1 :=
      (hmemiff j).mpr ⟨hj, hjval⟩
    rcases List.mem_iff_getElem.mp hjmem with ⟨pos, hpos, hval⟩
    obtain ⟨c, _, hcgd, heq⟩ := max_action_eval r p pos hm hlen hrow
    have hc : c = j := by
      rw [hcgd, Nat.mod_eq_of_lt hpos, getD_of_lt _ _ _ hpos, hval]
    rw [hc] at heq
    exact ⟨pos, heq⟩
  have part3 : ∀ rand nrand k, r.epsilon ≤ rand →
      ¬(∀ v ∈ qRow r p, v = (qRow r p).getD 0 0) →
      ∃ a r2, r.select_action p rand nrand k = some (a, r2) ∧
        (qRow r p).getD (Action.toUsize a) 0 = rowMax (qRow r p) ∧
        r2 = { r with previous_choice := some (p, a) } := by
    intro rand nrand k hrand hnall
    obtain ⟨c, hcmem, _, heq⟩ := max_action_eval r p k hm hlen hrow
    obtain ⟨hclt, hcval⟩ := (hmemiff c).mp hcmem
    refine ⟨Action.fromUsize c, _, ?_, ?_, rfl⟩
    · unfold Robot.select_action
      rw [if_neg (not_lt.mpr hrand)]
      rw [all_actions_same_eval r p hm hlen hrow]
      simp only [Option.bind_eq_bind, Option.some_bind]
      rw [decide_eq_false hnall]
      simp only [Bool.false_eq_true, if_false]
      rw [heq]
      simp only [Option.some_bind]
      rfl
    · rw [toUsize_fromUsize c (by omega)]
      exact hcval
  refine ⟨part1, part2, part3, ?_⟩
  intro heps j hj hstrict rand nrand k hrand
  have hjmax : (qRow r p).getD j 0 = rowMax (qRow r p) := by
    have h1 : (qRow r p).getD j 0 ≤ rowMax (qRow r p) := by
      apply le_rowMax
      rw [getD_of_lt _ _ _ hj]
      exact List.getElem_mem hj
    have h2 : rowMax (qRow r p) ≤ (qRow r p).getD j 0 := by
      rcases List.mem_iff_getElem.mp (rowMax_mem (qRow r p) hne) with
        ⟨n, hn, hval⟩
      by_cases hnj : n = j
      · subst hnj
        rw [getD_of_lt _ _ _ hj]
        exact le_of_eq hval.symm
      · have := hstrict n hn hnj
        rw [getD_of_lt _ _ _ hn] at this
        rw [← hval]
        exact le_of_lt this
    exact le_antisymm h1 h2
  have hnall : ¬(∀ v ∈ qRow r p, v = (qRow r p).getD 0 0) := by
    intro hall
    have h0lt : 0 < (qRow r p).length := by omega
    by_cases hj0 : j = 0
    · have h1lt : 1 < (qRow r p).length := by omega
      have hlt := hstrict 1 h1lt (by omega)
      have hv1 : (qRow r p).getD 1 0 = (qRow r p).getD 0 0 := by
        apply hall
        rw [getD_of_lt _ _ _ h1lt]
        exact List.getElem_mem h1lt
      have hv0 : (qRow r p).getD j 0 = (qRow r p).getD 0 0 := by
        rw [hj0]
      rw [hv1, hv0] at hlt
      exact lt_irrefl _ hlt
    · have hlt := hstrict 0 h0lt (fun hc => hj0 hc.symm)
      have hvj : (qRow r p).getD j 0 = (qRow r p).getD 0 0 := by
        apply hall
        rw [getD_of_lt _ _ _ hj]
        exact List.getElem_mem hj
      rw [hvj] at hlt
      exact lt_irrefl _ hlt
  obtain ⟨c, hcmem, _, heq⟩ := max_action_eval r p k hm hlen hrow
  obtain ⟨hclt, hcval⟩ := (hmemiff c).mp hcmem
  have hceq : c = j := by
    by_cases hcj : c = j
    · exact hcj
    · have := hstrict c hclt hcj
      rw [hcval, hjmax] at this
      exact absurd this (lt_irrefl _)
  unfold Robot.select_action
  rw [if_neg (not_lt.mpr (by rw [heps]; exact hrand))]
  rw [all_actions_same_eval r p hm hlen hrow]
  simp only [Option.bind_eq_bind, Option.some_bind]
  rw [decide_eq_false hnall]
  simp only [Bool.false_eq_true, if_false]
  rw [heq, hceq]
  simp only [Option.some_bind]
  rfl

/-- Witness for `greedy_selection`: the fresh `Robot.new 0` (all-zero
table, `epsilon = 0`) on the all-`Empty` percept. -/
theorem greedy_selection_witness :
    (Robot.new 0).percept_map = generate_percept_map ∧
    (Robot.new 0).q_matrix.length = 243 ∧
    ∃ a : Action,
      (Robot.new 0).max_action_for_percept
        { current := LocationValue.Empty, north := LocationValue.Empty
        , south := LocationValue.Empty, east := LocationValue.Empty
        , west := LocationValue.Empty } 0 =
      some (a, rowMax (qRow (Robot.new 0)
        { current := LocationValue.Empty, north := LocationValue.Empty
        , south := LocationValue.Empty, east := LocationValue.Empty
        , west := LocationValue.Empty })) ∧
      Action.toUsize a < (qRow (Robot.new 0)
        { current := LocationValue.Empty, north := LocationValue.Empty
        , south := LocationValue.Empty, east := LocationValue.Empty
        , west := LocationValue.Empty }).length ∧
      (qRow (Robot.new 0)
        { current := LocationValue.Empty, north := LocationValue.Empty
        , south := LocationValue.Empty, east := LocationValue.Empty
        , west := LocationValue.Empty }).getD (Action.toUsize a) 0 =
        rowMax (qRow (Robot.new 0)
          { current := LocationValue.Empty, north := LocationValue.Empty
          , south := LocationValue.Empty, east := LocationValue.Empty
          , west := LocationValue.Empty }) := by
  refine ⟨rfl, rfl, (greedy_selection (Robot.new 0)
    { current := LocationValue.Empty, north := LocationValue.Empty
    , south := LocationValue.Empty, east := LocationValue.Empty
    , west := LocationValue.Empty } rfl rfl ?_).1 0⟩
  intro row hrow
  have : row = List.replicate 5 (0 : ℚ) := by
    have := List.eq_of_mem_replicate hrow
    exact this
  rw [this]
  rfl


lemma getD_set_same {α : Type} (l : List α) (n : ℕ) (v dflt : α)
    (h : n < l.length) : (l.set n v).getD n dflt = v := by
  rw [List.getD_eq_getElem?_getD, List.getElem?_set, if_pos rfl, if_pos h]
  rfl

lemma getD_set_ne {α : Type} (l : List α) (n m : ℕ) (v dflt : α)
    (h : n ≠ m) : (l.set n v).getD m dflt = l.getD m dflt := by
  rw [List.getD_eq_getElem?_getD, List.getElem?_set, if_neg h,
    ← List.getD_eq_getElem?_getD]

/-- Symbolic evaluation of `Robot.reward` on a robot with the generated
percept map, a 243×5 table and a pending choice. -/
lemma reward_eval (r : Robot) (s : Percept) (a : Action)
    (amount eta gamma : ℚ) (s2 : Percept) (k : ℕ)
    (hprev : r.previous_choice = some (s, a))
    (hm : r.percept_map = generate_percept_map)
    (hlen : r.q_matrix.length = 243)
    (hrow : ∀ row ∈ r.q_matrix, row.length = 5) :
    r.reward amount eta gamma s2 k = some
      { r with q_matrix :=
          (r.q_matrix.set (perceptIdx s)
            ((qRow r s).set (Action.toUsize a)
              ((qRow r s).getD (Action.toUsize a) 0 +
                eta * (amount + gamma * rowMax (qRow r s2) -
                  (qRow r s).getD (Action.toUsize a) 0)))) } := by
  have hrl : (qRow r s).length = 5 := qRow_length r s hlen hrow
  have hpi : perceptIdx s < r.q_matrix.length := by
    rw [hlen]; exact perceptIdx_lt s
  have hq : r.q_matrix[perceptIdx s]? = some (qRow r s) := by
    rw [List.getElem?_eq_getElem hpi, qRow, getD_of_lt _ _ _ hpi]
  have hai : Action.toUsize a < (qRow r s).length := by
    rw [hrl]; exact toUsize_lt a
  have hcur : (qRow r s)[Action.toUsize a]? =
      some ((qRow r s).getD (Action.toUsize a) 0) := by
    rw [List.getElem?_eq_getElem hai, getD_of_lt _ _ _ hai]
  obtain ⟨c, _, _, heq⟩ := max_action_eval r s2 k hm hlen hrow
  unfold Robot.reward
  rw [hprev]
  simp only [Option.bind_eq_bind]
  rw [hm, mapLookup_generate s]
  simp only [Option.some_bind]
  rw [hq]
  simp only [Option.some_bind]
  rw [hcur]
  simp only [Option.some_bind]
  rw [heq]
  simp only [Option.some_bind]
  rfl

/-- **C2**: with a pending choice `(s, a)`, `reward` (the update) sets
`Q[s,a]` to `Q[s,a] + eta * ((reward + gamma * maxValue(s')) - Q[s,a])`
where `maxValue(s')` is the maximum entry of row `s'`, and leaves every
other entry of the 243×5 table unchanged. -/
theorem update_rule (r : Robot) (s : Percept) (a : Action)
    (amount eta gamma : ℚ) (s2 : Percept) (k : ℕ)
    (hprev : r.previous_choice = some (s, a))
    (hm : r.percept_map = generate_percept_map)
    (hlen : r.q_matrix.length = 243)
    (hrow : ∀ row ∈ r.q_matrix, row.length = 5) :
    ∃ r2, r.reward amount eta gamma s2 k = some r2 ∧
      rowMax (qRow r s2) ∈ qRow r s2 ∧
      (∀ v ∈ qRow r s2, v ≤ rowMax (qRow r s2)) ∧
      (qRow r2 s).getD (Action.toUsize a) 0 =
        (qRow r s).getD (Action.toUsize a) 0 +
          eta * ((amount + gamma * rowMax (qRow r s2)) -
            (qRow r s).getD (Action.toUsize a) 0) ∧
      (∀ i j, ¬(i = perceptIdx s ∧ j = Action.toUsize a) →
        (r2.q_matrix.getD i []).getD j 0 =
          (r.q_matrix.getD i []).getD j 0) ∧
      r2.q_matrix.length = 243 ∧
      (∀ row ∈ r2.q_matrix, row.length = 5) ∧
      r2.previous_choice = r.previous_choice ∧
      r2.epsilon = r.epsilon ∧ r2.percept_map = r.percept_map := by
  have hrl : (qRow r s).length = 5 := qRow_length r s hlen hrow
  have hrl2 : (qRow r s2).length = 5 := qRow_length r s2 hlen hrow
  have hne2 : qRow r s2 ≠ [] := by
    intro hc; rw [hc] at hrl2; simp at hrl2
  have hpi : perceptIdx s < r.q_matrix.length := by
    rw [hlen]; exact perceptIdx_lt s
  have hq : r.q_matrix[perceptIdx s]? = some (qRow r s) := by
    rw [List.getElem?_eq_getElem hpi, qRow, getD_of_lt _ _ _ hpi]
  have hai : Action.toUsize a < (qRow r s).length := by
    rw [hrl]; exact toUsize_lt a
  have hcur : (qRow r s)[Action.toUsize a]? =
      some ((qRow r s).getD (Action.toUsize a) 0) := by
    rw [List.getElem?_eq_getElem hai, getD_of_lt _ _ _ hai]
  obtain ⟨c, _, _, heq⟩ := max_action_eval r s2 k hm hlen hrow
  refine ⟨{ r with q_matrix :=
      (r.q_matrix.set (perceptIdx s)
        ((qRow r s).set (Action.toUsize a)
          ((qRow r s).getD (Action.toUsize a) 0 +
            eta * (amount + gamma * rowMax (qRow r s2) -
              (qRow r s).getD (Action.toUsize a) 0)))) }, ?_, ?_, ?_, ?_, ?_,
    ?_, ?_, rfl, rfl, rfl⟩
  · exact reward_eval r s a amount eta gamma s2 k hprev hm hlen hrow
  · exact rowMax_mem _ hne2
  · exact fun v hv => le_rowMax _ v hv
  · show ((r.q_matrix.set (perceptIdx s) _).getD (perceptIdx s) []).getD
        (Action.toUsize a) 0 = _
    rw [getD_set_same _ _ _ _ hpi, getD_set_same _ _ _ _ hai]
  · intro i j hne
    show ((r.q_matrix.set (perceptIdx s) _).getD i []).getD j 0 = _
    by_cases hi : i = perceptIdx s
    · subst hi
      have hj : j ≠ Action.toUsize a := fun hc => hne ⟨rfl, hc⟩
      rw [getD_set_same _ _ _ _ hpi,
        getD_set_ne _ _ _ _ _ (fun hc => hj hc.symm)]
      rfl
    · rw [getD_set_ne _ _ _ _ _ (fun hc => hi hc.symm)]
  · rw [List.length_set]
    exact hlen
  · intro row hmem
    rcases List.mem_or_eq_of_mem_set hmem with h | h
    · exact hrow _ h
    · rw [h, List.length_set]
      exact hrl

/-- Witness for `update_rule`: a fresh robot given a pending choice. -/
theorem update_rule_witness :
    ∃ r2 : Robot,
      ({ Robot.new 0 with previous_choice :=
          (some ({ current := LocationValue.Empty
                 , north := LocationValue.Empty
                 , south := LocationValue.Empty
                 , east := LocationValue.Empty
                 , west := LocationValue.Empty }, Action.PickUpCan)) } :
        Robot).reward 1 1 0
        { current := LocationValue.Empty, north := LocationValue.Empty
        , south := LocationValue.Empty, east := LocationValue.Empty
        , west := LocationValue.Empty } 0 = some r2 := by
  obtain ⟨r2, h1, _⟩ := update_rule
    { Robot.new 0 with previous_choice :=
        (some ({ current := LocationValue.Empty, north := LocationValue.Empty
               , south := LocationValue.Empty, east := LocationValue.Empty
               , west := LocationValue.Empty }, Action.PickUpCan)) }
    { current := LocationValue.Empty, north := LocationValue.Empty
    , south := LocationValue.Empty, east := LocationValue.Empty
    , west := LocationValue.Empty }
    Action.PickUpCan 1 1 0
    { current := LocationValue.Empty, north := LocationValue.Empty
    , south := LocationValue.Empty, east := LocationValue.Empty
    , west := LocationValue.Empty }
    0 rfl rfl rfl
    (fun row hmem => by rw [List.eq_of_mem_replicate hmem]; rfl)
  exact ⟨r2, h1⟩


/-- The all-`Empty` percept, used for concrete robot evaluations. -/
def pEmpty : Percept :=
  { current := LocationValue.Empty, north := LocationValue.Empty
  , south := LocationValue.Empty, east := LocationValue.Empty
  , west := LocationValue.Empty }

/-- A fresh robot carrying a pending choice, as `select_action` leaves
it. -/
def rPending : Robot :=
  { Robot.new 0 with previous_choice := (some (pEmpty, Action.PickUpCan)) }

/-- **C4** (counterexample): `reward` never clears `previous_choice`,
so after one update the robot is still awaiting-update, and a second
consecutive identical update call changes the value table again instead
of being a no-op: with `eta = 1/2`, `gamma = 0` and reward `1`, the
entry `Q[pEmpty, PickUpCan]` goes `0 → 1/2 → 3/4`. -/
theorem update_not_consumed :
    ∃ r1 r2 : Robot,
      rPending.reward 1 (1/2) 0 pEmpty 0 = some r1 ∧
      r1.previous_choice = some (pEmpty, Action.PickUpCan) ∧
      r1.reward 1 (1/2) 0 pEmpty 0 = some r2 ∧
      (qRow r1 pEmpty).getD 4 0 = 1/2 ∧
      (qRow r2 pEmpty).getD 4 0 = 3/4 ∧
      r2.q_matrix ≠ r1.q_matrix := by
  have hrow0 : ∀ row ∈ rPending.q_matrix, row.length = 5 := by
    intro row h
    rw [List.eq_of_mem_replicate h]
    rfl
  have hlen0 : rPending.q_matrix.length = 243 := rfl
  have hpi0 : perceptIdx pEmpty = 0 := rfl
  have hq0lt : (0 : ℕ) < rPending.q_matrix.length := by rw [hlen0]; omega
  have hrow0eq : qRow rPending pEmpty = List.replicate 5 (0 : ℚ) := by
    have hqm : rPending.q_matrix =
        List.replicate 243 (List.replicate 5 (0 : ℚ)) := rfl
    rw [qRow, hpi0, hqm,
      getD_of_lt _ _ _ (by rw [List.length_replicate]; omega)]
    exact List.getElem_replicate _ _
  have htu : Action.toUsize Action.PickUpCan = 4 := rfl
  have h1 := reward_eval rPending pEmpty Action.PickUpCan 1 (1/2) 0 pEmpty 0
    rfl rfl hlen0 hrow0
  rw [htu, hpi0] at h1
  set nv1 : ℚ := (qRow rPending pEmpty).getD 4 0 +
    1/2 * (1 + 0 * rowMax (qRow rPending pEmpty) -
      (qRow rPending pEmpty).getD 4 0) with hnv1def
  set r1 : Robot := { rPending with q_matrix :=
    (rPending.q_matrix.set 0 ((qRow rPending pEmpty).set 4 nv1)) } with hr1def
  have hc0 : (qRow rPending pEmpty).getD 4 0 = 0 := by
    rw [hrow0eq, List.getD_eq_getElem?_getD,
      List.getElem?_eq_getElem (by simp : (4 : ℕ) < (List.replicate 5 (0 : ℚ)).length)]
    rw [List.getElem_replicate]
    rfl
  have hnv1 : nv1 = 1/2 := by
    rw [hnv1def, hc0]
    ring
  have hrow1len : ((qRow rPending pEmpty).set 4 nv1).length = 5 := by
    rw [List.length_set]
    exact qRow_length rPending pEmpty hlen0 hrow0
  have hlen1 : r1.q_matrix.length = 243 := by
    rw [hr1def]
    show (rPending.q_matrix.set 0 _).length = 243
    rw [List.length_set]
    exact hlen0
  have hrow1 : ∀ row ∈ r1.q_matrix, row.length = 5 := by
    intro row h
    rcases List.mem_or_eq_of_mem_set h with hmem | hmem
    · exact hrow0 row hmem
    · rw [hmem]
      exact hrow1len
  have hq1 : qRow r1 pEmpty = (qRow rPending pEmpty).set 4 nv1 := by
    rw [qRow, hpi0]
    exact getD_set_same _ _ _ _ hq0lt
  have hv1 : (qRow r1 pEmpty).getD 4 0 = nv1 := by
    rw [hq1]
    exact getD_set_same _ _ _ _ (by
      rw [qRow_length rPending pEmpty hlen0 hrow0]; omega)
  have h2 := reward_eval r1 pEmpty Action.PickUpCan 1 (1/2) 0 pEmpty 0
    rfl rfl hlen1 hrow1
  rw [htu, hpi0] at h2
  set nv2 : ℚ := (qRow r1 pEmpty).getD 4 0 +
    1/2 * (1 + 0 * rowMax (qRow r1 pEmpty) -
      (qRow r1 pEmpty).getD 4 0) with hnv2def
  set r2 : Robot := { r1 with q_matrix :=
    (r1.q_matrix.set 0 ((qRow r1 pEmpty).set 4 nv2)) } with hr2def
  have hnv2 : nv2 = 3/4 := by
    rw [hnv2def, hv1, hnv1]
    ring
  have hq1lt : (0 : ℕ) < r1.q_matrix.length := by rw [hlen1]; omega
  have hv2 : (qRow r2 pEmpty).getD 4 0 = nv2 := by
    have hq2 : qRow r2 pEmpty = (qRow r1 pEmpty).set 4 nv2 := by
      rw [qRow, hpi0]
      exact getD_set_same _ _ _ _ hq1lt
    rw [hq2]
    exact getD_set_same _ _ _ _ (by
      rw [qRow_length r1 pEmpty hlen1 hrow1]; omega)
  refine ⟨r1, r2, h1, rfl, h2, by rw [hv1, hnv1], by rw [hv2, hnv2], ?_⟩
  intro hcontra
  have : (qRow r2 pEmpty).getD 4 0 = (qRow r1 pEmpty).getD 4 0 := by
    rw [qRow, qRow, hcontra]
  rw [hv1, hnv1, hv2, hnv2] at this
  norm_num at this

/-- **C4** (amended): `reward` with no pending choice is a defined
no-op returning the robot unchanged, and a successful `reward` never
modifies `previous_choice`, `epsilon` or `percept_map` — in particular
the pending choice is *not* cleared, so the agent stays in the
awaiting-update state and a second consecutive update re-applies the
learning rule with the same pair. -/
theorem update_pending_state (r : Robot) (amount eta gamma : ℚ)
    (s2 : Percept) (k : ℕ) :
    (r.previous_choice = none →
      r.reward amount eta gamma s2 k = some r) ∧
    (∀ r2, r.reward amount eta gamma s2 k = some r2 →
      r2.previous_choice = r.previous_choice ∧
      r2.epsilon = r.epsilon ∧ r2.percept_map = r.percept_map) := by
  constructor
  · intro hn
    unfold Robot.reward
    rw [hn]
  · intro r2 h2
    unfold Robot.reward at h2
    cases hpc : r.previous_choice with
    | none =>
        rw [hpc] at h2
        have : r = r2 := Option.some_inj.mp h2
        rw [← this, hpc]
        exact ⟨rfl, rfl, rfl⟩
    | some pa =>
        obtain ⟨p, a⟩ := pa
        rw [hpc] at h2
        simp only [Option.bind_eq_bind] at h2
        cases h3 : mapLookup r.percept_map p with
        | none =>
            rw [h3] at h2
            simp at h2
        | some pi =>
            rw [h3] at h2
            simp only [Option.some_bind] at h2
            cases h4 : r.q_matrix[pi]? with
            | none =>
                rw [h4] at h2
                simp at h2
            | some row =>
                rw [h4] at h2
                simp only [Option.some_bind] at h2
                cases h5 : row[Action.toUsize a]? with
                | none =>
                    rw [h5] at h2
                    simp at h2
                | some cur =>
                    rw [h5] at h2
                    simp only [Option.some_bind] at h2
                    cases h6 : r.max_action_for_percept s2 k with
                    | none =>
                        rw [h6] at h2
                        simp at h2
                    | some m =>
                        rw [h6] at h2
                        simp only [Option.some_bind] at h2
                        have he := Option.some_inj.mp h2
                        subst he
                        exact ⟨rfl, rfl, rfl⟩

/-- Witness for `update_pending_state`: the idle fresh robot, for which
update is a no-op. -/
theorem update_pending_state_witness :
    (Robot.new 0).reward 1 1 0 pEmpty 0 = some (Robot.new 0) :=
  (update_pending_state (Robot.new 0) 1 1 0 pEmpty 0).1 rfl


/-- **C7**: the percept-index table is a bijection from the full domain
of 3^5 = 243 percepts onto `[0, 243)`: every percept (reachable or not)
is a key, keys are pairwise distinct, and the assigned indices are
exactly `0, …, 242` with no gaps; being a pure function of no inputs,
the construction is deterministic. -/
theorem percept_map_bijection :
    generate_percept_map.length = 243 ∧
    (generate_percept_map.map Prod.fst).Nodup ∧
    generate_percept_map.map Prod.snd = List.range 243 ∧
    ∀ p : Percept, (p, perceptIdx p) ∈ generate_percept_map ∧
      mapLookup generate_percept_map p = some (perceptIdx p) ∧
      perceptIdx p < 243 :=
  ⟨generate_length, generate_keys_nodup, generate_vals_range,
    fun p => ⟨mem_generate p, mapLookup_generate p, perceptIdx_lt p⟩⟩

/-! ## The randomized grid placement loop -/

/-- Invariant of the placement loop of `random_grid`: a square grid
whose `Can` cells are exactly the coordinates recorded in `already`. -/
def GridInv (d cans : ℕ) (already : List (ℕ × ℕ))
    (grid : List (List LocationValue)) : Prop :=
  grid.length = d ∧ (∀ row ∈ grid, row.length = d) ∧
  already.Nodup ∧ (∀ q ∈ already, q.1 < d ∧ q.2 < d) ∧
  already.length = cans ∧
  (∀ x y, x < d → y < d →
    getCellD grid x y =
      if (x, y) ∈ already then LocationValue.Can else LocationValue.Empty) ∧
  countCanGrid grid = cans

lemma countCan_set_place {g : List (List LocationValue)} {d x y : ℕ}
    (hlen : g.length = d) (hrow : ∀ row ∈ g, row.length = d)
    (hx : x < d) (hy : y < d)
    (hemp : getCellD g x y = LocationValue.Empty) :
    countCanGrid (g.set x ((g.getD x []).set y LocationValue.Can)) =
      countCanGrid g + 1 := by
  have hx' : x < g.length := by omega
  have hylen : y < (g.getD x []).length := by
    rw [getD_of_lt g x [] hx', hrow _ (List.getElem_mem hx')]; omega
  unfold countCanGrid
  have hsum := sum_map_set
    (fun row => row.countP fun v => decide (v = LocationValue.Can)) g x hx'
    ((g.getD x []).set y LocationValue.Can)
  have hcnt := countP_set (fun v => decide (v = LocationValue.Can))
    (g.getD x []) y hylen LocationValue.Can
  have hgd : (g.getD x []).getD y LocationValue.Empty =
      LocationValue.Empty := hemp
  rw [hgd] at hcnt
  have hone : (if decide (LocationValue.Can = LocationValue.Can) = true
      then (1 : ℕ) else 0) = 1 := rfl
  have hzero : (if decide (LocationValue.Empty = LocationValue.Can) = true
      then (1 : ℕ) else 0) = 0 := rfl
  rw [hone, hzero] at hcnt
  omega

lemma GridInv_init (d : ℕ) :
    GridInv d 0 []
      (List.replicate d (List.replicate d LocationValue.Empty)) := by
  refine ⟨List.length_replicate _ _, ?_, List.nodup_nil, ?_, rfl, ?_, ?_⟩
  · intro row h
    rw [List.eq_of_mem_replicate h]
    exact List.length_replicate _ _
  · intro q h
    cases h
  · intro x y hx hy
    have hx' : x < (List.replicate d
        (List.replicate d LocationValue.Empty)).length := by
      rw [List.length_replicate]; omega
    rw [if_neg (List.not_mem_nil (x, y))]
    unfold getCellD
    rw [getD_of_lt _ _ _ hx', List.getElem_replicate]
    have hy' : y < (List.replicate d LocationValue.Empty).length := by
      rw [List.length_replicate]; omega
    rw [getD_of_lt _ _ _ hy', List.getElem_replicate]
  · unfold countCanGrid
    rw [List.map_replicate]
    have hcp : (List.replicate d LocationValue.Empty).countP
        (fun v => decide (v = LocationValue.Can)) = 0 := by
      rw [List.countP_replicate]
      rfl
    rw [hcp]
    have hsum0 : ∀ n : ℕ, (List.replicate n (0 : ℕ)).sum = 0 := by
      intro n
      induction n with
      | zero => rfl
      | succ n ih => rw [List.replicate_succ, List.sum_cons, ih]
    exact hsum0 d

lemma GridInv_step {d cans : ℕ} {already : List (ℕ × ℕ)}
    {grid : List (List LocationValue)} (xy : ℕ × ℕ)
    (hinv : GridInv d cans already grid) (hnew : xy ∉ already)
    (hx : xy.1 < d) (hy : xy.2 < d) :
    setCell grid xy.1 xy.2 LocationValue.Can =
      some (grid.set xy.1
        ((grid.getD xy.1 []).set xy.2 LocationValue.Can)) ∧
    GridInv d (cans + 1) (xy :: already)
      (grid.set xy.1 ((grid.getD xy.1 []).set xy.2 LocationValue.Can)) := by
  obtain ⟨hlen, hrow, hnd, hbnd, hal, hcell, hcnt⟩ := hinv
  have hx' : xy.1 < grid.length := by omega
  have hemp : getCellD grid xy.1 xy.2 = LocationValue.Empty := by
    rw [hcell xy.1 xy.2 hx hy, if_neg]
    intro hc
    exact hnew hc
  refine ⟨setCell_eq_some hlen hrow hx hy _, ?_, ?_, ?_, ?_, ?_, ?_, ?_⟩
  · rw [List.length_set]; exact hlen
  · intro row h
    rcases List.mem_or_eq_of_mem_set h with hm | hm
    · exact hrow _ hm
    · rw [hm]
      exact length_set_getD hrow hx' _
  · exact List.Nodup.cons hnew hnd
  · intro q h
    rcases List.mem_cons.mp h with hm | hm
    · rw [hm]; exact ⟨hx, hy⟩
    · exact hbnd q hm
  · rw [List.length_cons, hal]
  · intro x y hxd hyd
    rw [getCellD_set hlen hrow hx hy LocationValue.Can x y]
    by_cases hc : x = xy.1 ∧ y = xy.2
    · rw [if_pos hc, if_pos]
      rw [List.mem_cons]
      left
      rw [hc.1, hc.2]
    · rw [if_neg hc, hcell x y hxd hyd]
      by_cases hm : (x, y) ∈ already
      · rw [if_pos hm, if_pos (List.mem_cons_of_mem xy hm)]
      · rw [if_neg hm, if_neg]
        intro hcon
        rcases List.mem_cons.mp hcon with h1 | h1
        · apply hc
          have h2 := congrArg Prod.fst h1
          have h3 := congrArg Prod.snd h1
          exact ⟨h2, h3⟩
        · exact hm h1
  · rw [countCan_set_place hlen hrow hx hy hemp, hcnt]


lemma random_grid_loop_sound (number_of_cans : ℕ) (samples : ℕ → ℕ × ℕ)
    (d : ℕ) (hs : ∀ m, (samples m).1 < d ∧ (samples m).2 < d) :
    ∀ (fuel n cans : ℕ) (already : List (ℕ × ℕ))
      (grid g : List (List LocationValue)),
      cans ≤ number_of_cans →
      GridInv d cans already grid →
      random_grid_loop number_of_cans samples fuel n cans already grid =
        some g →
      g.length = d ∧ (∀ row ∈ g, row.length = d) ∧
      countCanGrid g = number_of_cans ∧
      (∀ x y, x < d → y < d →
        getCellD g x y = LocationValue.Can ∨
          getCellD g x y = LocationValue.Empty) := by
  intro fuel
  induction fuel with
  | zero =>
      intro n cans already grid g hle hinv hrun
      unfold random_grid_loop at hrun
      by_cases hlt : cans < number_of_cans
      · rw [if_pos hlt] at hrun
        cases hrun
      · rw [if_neg hlt] at hrun
        have hg : grid = g := Option.some_inj.mp hrun
        subst hg
        obtain ⟨hlen, hrow, _, _, _, hcell, hcnt⟩ := hinv
        refine ⟨hlen, hrow, by omega, ?_⟩
        intro x y hx hy
        rw [hcell x y hx hy]
        by_cases hm : (x, y) ∈ already
        · rw [if_pos hm]; exact Or.inl rfl
        · rw [if_neg hm]; exact Or.inr rfl
  | succ fuel ih =>
      intro n cans already grid g hle hinv hrun
      unfold random_grid_loop at hrun
      by_cases hlt : cans < number_of_cans
      · rw [if_pos hlt] at hrun
        dsimp only at hrun
        by_cases hm : samples n ∈ already
        · rw [if_pos hm] at hrun
          exact ih (n + 1) cans already grid g hle hinv hrun
        · rw [if_neg hm] at hrun
          obtain ⟨hset, hinv2⟩ := GridInv_step (samples n) hinv hm
            (hs n).1 (hs n).2
          rw [hset] at hrun
          exact ih (n + 1) (cans + 1) (samples n :: already) _ g
            (by omega) hinv2 hrun
      · rw [if_neg hlt] at hrun
        have hg : grid = g := Option.some_inj.mp hrun
        subst hg
        obtain ⟨hlen, hrow, _, _, _, hcell, hcnt⟩ := hinv
        refine ⟨hlen, hrow, by omega, ?_⟩
        intro x y hx hy
        rw [hcell x y hx hy]
        by_cases hm : (x, y) ∈ already
        · rw [if_pos hm]; exact Or.inl rfl
        · rw [if_neg hm]; exact Or.inr rfl

lemma already_length_le {d : ℕ} {already : List (ℕ × ℕ)}
    (hnd : already.Nodup) (hbnd : ∀ q ∈ already, q.1 < d ∧ q.2 < d) :
    already.length ≤ d * d := by
  have hsub : already.toFinset ⊆ Finset.range d ×ˢ Finset.range d := by
    intro q hq
    rw [List.mem_toFinset] at hq
    rw [Finset.mem_product, Finset.mem_range, Finset.mem_range]
    exact hbnd q hq
  have hcard := Finset.card_le_card hsub
  rw [Finset.card_product, Finset.card_range] at hcard
  rw [← List.toFinset_card_of_nodup hnd]
  exact hcard

lemma random_grid_loop_stuck (number_of_cans d : ℕ) (samples : ℕ → ℕ × ℕ)
    (hs : ∀ m, (samples m).1 < d ∧ (samples m).2 < d)
    (hover : d * d < number_of_cans) :
    ∀ (fuel n cans : ℕ) (already : List (ℕ × ℕ))
      (grid : List (List LocationValue)),
      already.Nodup → (∀ q ∈ already, q.1 < d ∧ q.2 < d) →
      cans = already.length →
      random_grid_loop number_of_cans samples fuel n cans already grid =
        none := by
  intro fuel
  induction fuel with
  | zero =>
      intro n cans already grid hnd hbnd hcans
      unfold random_grid_loop
      rw [if_pos]
      have := already_length_le hnd hbnd
      omega
  | succ fuel ih =>
      intro n cans already grid hnd hbnd hcans
      unfold random_grid_loop
      rw [if_pos (by have := already_length_le hnd hbnd; omega)]
      dsimp only
      by_cases hm : samples n ∈ already
      · rw [if_pos hm]
        exact ih (n + 1) cans already grid hnd hbnd hcans
      · rw [if_neg hm]
        cases hset : setCell grid (samples n).1 (samples n).2
            LocationValue.Can with
        | none => rfl
        | some g2 =>
            exact ih (n + 1) (cans + 1) (samples n :: already) g2
              (List.Nodup.cons hm hnd)
              (fun q hq => by
                rcases List.mem_cons.mp hq with h1 | h1
                · rw [h1]; exact hs n
                · exact hbnd q h1)
              (by rw [List.length_cons, hcans])

/-- The deterministic sample stream that enumerates the grid cells in
row-major order (then repeats), standing in for the uniform sampler. -/
def enumSamples (d : ℕ) (n : ℕ) : ℕ × ℕ := ((n / d) % d, n % d)

lemma enumSamples_range (d : ℕ) (hd : 1 ≤ d) (n : ℕ) :
    (enumSamples d n).1 < d ∧ (enumSamples d n).2 < d :=
  ⟨Nat.mod_lt _ (by omega), Nat.mod_lt _ (by omega)⟩

lemma enumSamples_inj (d : ℕ) (hd : 1 ≤ d) {m m' : ℕ}
    (hm : m < d * d) (hm' : m' < d * d)
    (h : enumSamples d m = enumSamples d m') : m = m' := by
  unfold enumSamples at h
  have h1 : m / d < d := Nat.div_lt_iff_lt_mul (by omega) |>.mpr hm
  have h1' : m' / d < d := Nat.div_lt_iff_lt_mul (by omega) |>.mpr hm'
  have h2 : (m / d) % d = m / d := Nat.mod_eq_of_lt h1
  have h2' : (m' / d) % d = m' / d := Nat.mod_eq_of_lt h1'
  rw [h2, h2'] at h
  have hfst := congrArg Prod.fst h
  have hsnd := congrArg Prod.snd h
  simp only at hfst hsnd
  have hm1 := Nat.div_add_mod m d
  have hm2 := Nat.div_add_mod m' d
  rw [← hm1, ← hm2, hfst, hsnd]

lemma random_grid_loop_term (number_of_cans d : ℕ) (hd : 1 ≤ d)
    (htot : number_of_cans ≤ d * d) :
    ∀ (remaining cans : ℕ) (already : List (ℕ × ℕ))
      (grid : List (List LocationValue)),
      cans + remaining = number_of_cans →
      already = ((List.range cans).map (enumSamples d)).reverse →
      GridInv d cans already grid →
      ∃ g, random_grid_loop number_of_cans (enumSamples d) remaining cans
        cans already grid = some g := by
  intro remaining
  induction remaining with
  | zero =>
      intro cans already grid hsum _ _
      refine ⟨grid, ?_⟩
      unfold random_grid_loop
      rw [if_neg (by omega)]
  | succ remaining ih =>
      intro cans already grid hsum halready hinv
      have hlt : cans < number_of_cans := by omega
      have hfresh : enumSamples d cans ∉ already := by
        rw [halready]
        intro hmem
        rw [List.mem_reverse, List.mem_map] at hmem
        obtain ⟨m, hm, heq⟩ := hmem
        rw [List.mem_range] at hm
        have := enumSamples_inj d hd
          (by omega : m < d * d) (by omega : cans < d * d) heq
        omega
      obtain ⟨hset, hinv2⟩ := GridInv_step (enumSamples d cans) hinv hfresh
        (enumSamples_range d hd cans).1 (enumSamples_range d hd cans).2
      have halready2 : enumSamples d cans :: already =
          ((List.range (cans + 1)).map (enumSamples d)).reverse := by
        rw [List.range_succ, List.map_append, List.reverse_append]
        rw [← halready]
        rfl
      obtain ⟨g, hg⟩ := ih (cans + 1) (enumSamples d cans :: already) _
        (by omega) halready2 hinv2
      refine ⟨g, ?_⟩
      unfold random_grid_loop
      rw [if_pos hlt]
      dsimp only
      rw [if_neg hfresh, hset]
      exact hg


/-- **C3** (code bug evidence): when the requested number of cans
exceeds `dimension²`, the `random_grid` placement loop can never finish
— for every in-range sample stream and every iteration bound the loop
is still running (`none`) — so the randomized constructor hangs instead
of failing fast with a configuration error. -/
theorem random_grid_overfull_diverges (d c : ℕ) (samples : ℕ → ℕ × ℕ)
    (hs : ∀ m, (samples m).1 < d ∧ (samples m).2 < d)
    (hover : d * d < c) (fuel : ℕ) :
    random_grid d c samples fuel = none :=
  random_grid_loop_stuck c d samples hs hover fuel 0 0 [] _
    List.nodup_nil (fun q hq => absurd hq (List.not_mem_nil q)) rfl

/-- Witness for `random_grid_overfull_diverges`: dimension 1 with two
requested cans makes no progress within 5 iterations (nor any other
bound). -/
theorem random_grid_overfull_diverges_witness :
    random_grid 1 2 (fun _ => (0, 0)) 5 = none :=
  random_grid_overfull_diverges 1 2 (fun _ => (0, 0))
    (fun _ => ⟨Nat.zero_lt_one, Nat.zero_lt_one⟩) (by omega) 5

/-- **C9**: for `dimension ≥ 1` and `canCount ≤ dimension²`, (i) any
grid the placement loop returns — under any in-range sample stream —
is `dimension × dimension` with exactly `canCount` cells equal to `Can`
and every other cell `Empty`, and (ii) the loop terminates: under the
cell-enumerating sample stream it returns a grid within `canCount`
iterations. -/
theorem random_grid_spec (d canCount : ℕ) (hd : 1 ≤ d)
    (hc : canCount ≤ d * d) :
    (∀ (samples : ℕ → ℕ × ℕ) (fuel : ℕ) (g : List (List LocationValue)),
      (∀ m, (samples m).1 < d ∧ (samples m).2 < d) →
      random_grid d canCount samples fuel = some g →
      g.length = d ∧ (∀ row ∈ g, row.length = d) ∧
      countCanGrid g = canCount ∧
      (∀ x y, x < d → y < d →
        getCellD g x y = LocationValue.Can ∨
          getCellD g x y = LocationValue.Empty)) ∧
    ∃ g, random_grid d canCount (enumSamples d) canCount = some g := by
  constructor
  · intro samples fuel g hs hrun
    exact random_grid_loop_sound canCount samples d hs fuel 0 0 [] _ g
      (by omega) (GridInv_init d) hrun
  · exact random_grid_loop_term canCount d hd hc canCount 0 [] _
      (by omega) rfl (GridInv_init d)

/-- Witness for `random_grid_spec`: a 2×2 grid with two cans. -/
theorem random_grid_spec_witness :
    (1 : ℕ) ≤ 2 ∧ (2 : ℕ) ≤ 2 * 2 ∧
    ∃ g, random_grid 2 2 (enumSamples 2) 2 = some g :=
  ⟨by omega, by omega, (random_grid_spec 2 2 (by omega) (by omega)).2⟩

end RLAgent
